import Mathlib

/-!
The dump, pipe and restore commands of rutil (main.go).

A shallow embedding of the three transfer commands of main.go (the dump, pipe
and restore actions) together with the properties of their control flow: which
helper calls are made, in which order, with which arguments, and which counters
are reported.

The actions only drive helpers that are defined elsewhere in the package
(getKeys, dumpKey, writeHeader, writeDump, readHeader, readDump, restoreKey,
genRespProto, the store client) and in libraries (os, pb).  Those helpers are
parameters of the embedding (the structure World), so that every result below
holds for every behaviour of the helpers.  Each action returns the trace of the
calls it made, in program order, every call recorded with its arguments and
with the value the helper returned.
-/

namespace Rutil

/-! ## Data model -/

/-- Modelled from the spec: the declaration of the `KeyDump` record is not part of
main.go, which only uses its fields `Key`, `Pttl` and `Dump`; the spec gives them as
a key name, a signed TTL in milliseconds and a byte sequence. -/
structure KeyDump where
  Key : String
  Pttl : Int
  Dump : List Nat
deriving DecidableEq, Repr

/-- Modelled from the spec: the declaration of the header record is not part of
main.go, which only uses its field `Keys` (an unsigned 64-bit record count). -/
structure Header where
  Keys : Nat
deriving DecidableEq, Repr

/-- A Go `error` value: `none` is `nil`. -/
abbrev GoError := Option String

/-- The `io.Reader` the restore command reads from: `os.Stdin` or an opened file. -/
inductive Reader where
  | stdin
  | file (h : Nat)
deriving DecidableEq, Repr

/-- The values handed to `bar.FinishPrint` at the end of a command:
`"file: %s, keys: %d, expired: %d, bytes: %d"` for dump (main.go:119) and
`"file: %s, keys: %d"` for restore (main.go:228). -/
inductive Report where
  | dump (fileName : String) (keysC expired totalBytes : Int)
  | restore (fileName : String) (keysC : Int)
deriving DecidableEq, Repr

/-- One call made by main.go, with its arguments and the value it returned.
For a helper of the package the result `none` records that the helper ended the
process instead of returning. -/
inductive Event where
  | fail (msg : String)
  | getKeys (pat regex : String) (inv : Bool) (res : Option (List String × Int))
  | create (fileName : String) (file : Nat) (err : GoError)
  | openFile (fileName : String) (file : Nat) (err : GoError)
  | barStart (n : Int)
  | barIncrement
  | writeHeader (file : Nat) (count : Int) (res : Option Int)
  | dumpKey (k : String) (res : Option (Bool × KeyDump))
  | writeDump (file : Nat) (kd : KeyDump) (res : Option Int)
  | seek (file : Nat) (offset whence : Int) (err : GoError)
  | genRespProto (cmd key : String) (ttl : Int) (payload : List Nat) (res : Option Unit)
  | readHeader (rd : Reader) (res : Option Header)
  | cmd (name : String) (res : Option GoError)
  | readDump (rd : Reader) (res : Option (Int × KeyDump))
  | restoreKey (d : KeyDump) (del ignor : Bool) (res : Option Int)
  | finishPrint (rep : Report)
deriving DecidableEq, Repr

/-- How an action ends: `done` is `return nil`; `failed` is a call of `fail`;
`checkErr` is a call of `checkErr` with a non-nil error; `panicked` is
`panic(err)`; `exited` is a helper of the package ending the process. -/
inductive Outcome where
  | done
  | failed (msg : String)
  | checkErr (err msg : String)
  | panicked (err : String)
  | exited
deriving DecidableEq, Repr

/-- The result of running an action: the calls it made, how it ended, and the
state of the outside world it left. -/
structure Run (σ : Type) where
  trace : List Event
  outcome : Outcome
  state : σ

/-- The run `r` preceded by the calls `es`. -/
def Run.after {σ : Type} (es : List Event) (r : Run σ) : Run σ :=
  { r with trace := es ++ r.trace }

/-- The helpers main.go calls and does not define, as functions of the state of
the outside world (store, file system, standard streams, clock).  A helper of
the package that may end the process itself returns an `Option`. -/
structure World (σ : Type) where
  /-- width of the Go type `int` on the platform -/
  intBits : Nat
  /-- the text of `time.Now().Format("20060102150405")` -/
  clock : σ → String
  getKeys : String → String → Bool → σ → Option ((List String × Int) × σ)
  create : String → σ → (Nat × GoError) × σ
  openFile : String → σ → (Nat × GoError) × σ
  writeHeader : Nat → Int → σ → Option (Int × σ)
  dumpKey : String → σ → Option ((Bool × KeyDump) × σ)
  writeDump : Nat → KeyDump → σ → Option (Int × σ)
  seek : Nat → Int → Int → σ → GoError × σ
  genRespProto : String → String → Int → List Nat → σ → Option σ
  readHeader : Reader → σ → Option (Header × σ)
  cmd : String → σ → Option (GoError × σ)
  readDump : Reader → σ → Option ((Int × KeyDump) × σ)
  restoreKey : KeyDump → Bool → Bool → σ → Option (Int × σ)

/-! ## Go integer arithmetic -/

/-- A mathematical integer reduced to the two's complement range of a signed
integer of `w` bits: the representative of `x` modulo `2 ^ w` that lies in
`[-2 ^ (w - 1), 2 ^ (w - 1))`. -/
def wrapInt (w : Nat) (x : Int) : Int :=
  Int.bmod x (2 ^ w)

/-- Go addition on `int`. -/
def addInt (w : Nat) (a b : Int) : Int :=
  wrapInt w (a + b)

/-! ## Termination helpers -/

/-- Modelled from the spec: `fail` is not defined in main.go; a configuration error
is fatal, so `fail msg` reports the message and ends the process: nothing after
the call runs. -/
def fail {σ : Type} (msg : String) (s : σ) : Run σ :=
  ⟨[Event.fail msg], Outcome.failed msg, s⟩

/-- Modelled from the spec: `checkErr` is not defined in main.go; an I/O or store
error is fatal, so `checkErr err msg` ends the process when `err` is not nil
(the result is the outcome of the run) and returns otherwise (`none`). -/
def checkErr (err : GoError) (msg : String) : Option Outcome :=
  match err with
  | some e => some (Outcome.checkErr e msg)
  | none => none

/-! ## The dump command (main.go:70-121) -/

/-- The local variables of the dump loop. -/
structure DumpVars where
  totalBytes : Int
  keysC : Int
  expired : Int
deriving DecidableEq, Repr

/-- The loop of main.go:102-112 over the enumerated keys.  Returns the calls made,
the final local variables (`none` when a helper ended the process) and the
state of the world. -/
def dumpLoop {σ : Type} (W : World σ) (file : Nat) :
    List String → DumpVars → σ → List Event × Option DumpVars × σ
  | [], v, s => ([], some v, s)
  | k :: ks, v, s =>
    match W.dumpKey k s with
    | none => ([Event.barIncrement, Event.dumpKey k none], none, s)
    | some ((ok, kd), s1) =>
      if ok = true then
        match W.writeDump file kd s1 with
        | none =>
          ([Event.barIncrement, Event.dumpKey k (some (ok, kd)),
            Event.writeDump file kd none], none, s1)
        | some (b, s2) =>
          let r := dumpLoop W file ks
            { v with totalBytes := addInt W.intBits v.totalBytes b,
                     keysC := addInt W.intBits v.keysC 1 } s2
          (Event.barIncrement :: Event.dumpKey k (some (ok, kd)) ::
            Event.writeDump file kd (some b) :: r.1, r.2)
      else
        let r := dumpLoop W file ks
          { v with expired := addInt W.intBits v.expired 1 } s1
        (Event.barIncrement :: Event.dumpKey k (some (ok, kd)) :: r.1, r.2)

/-- The part of the dump action after the file name is chosen (main.go:91-120). -/
def dumpBody {σ : Type} (W : World σ) (fileName keysPat regex : String) (inv : Bool)
    (s : σ) : Run σ :=
  match W.getKeys keysPat regex inv s with
  | none => ⟨[Event.getKeys keysPat regex inv none], Outcome.exited, s⟩
  | some ((keys, keysC), s1) =>
    Run.after [Event.getKeys keysPat regex inv (some (keys, keysC))] <|
    match W.create fileName s1 with
    | ((file, err), s2) =>
      Run.after [Event.create fileName file err] <|
      match checkErr err ("create " ++ fileName) with
      | some o => ⟨[], o, s2⟩
      | none =>
        Run.after [Event.barStart keysC] <|
        match W.writeHeader file keysC s2 with
        | none => ⟨[Event.writeHeader file keysC none], Outcome.exited, s2⟩
        | some (totalBytes, s3) =>
          Run.after [Event.writeHeader file keysC (some totalBytes)] <|
          match dumpLoop W file keys ⟨totalBytes, 0, 0⟩ s3 with
          | (tl, none, s4) => ⟨tl, Outcome.exited, s4⟩
          | (tl, some v, s4) =>
            Run.after tl <|
            match W.seek file 0 0 s4 with
            | (some e, s5) => ⟨[Event.seek file 0 0 (some e)], Outcome.panicked e, s5⟩
            | (none, s5) =>
              Run.after [Event.seek file 0 0 none] <|
              match W.writeHeader file v.keysC s5 with
              | none => ⟨[Event.writeHeader file v.keysC none], Outcome.exited, s5⟩
              | some (b, s6) =>
                ⟨[Event.writeHeader file v.keysC (some b),
                  Event.finishPrint (Report.dump fileName v.keysC v.expired v.totalBytes)],
                  Outcome.done, s6⟩

/-- The dump action (main.go:70-121): the switch on the positional arguments and
the auto flag, then the body. -/
def dumpAction {σ : Type} (W : World σ) (args : List String) (auto : Bool)
    (keysPat regex : String) (inv : Bool) (s : σ) : Run σ :=
  if args.length = 0 ∧ auto = false then
    fail "provide a file name or --auto" s
  else if args.length > 0 ∧ auto = true then
    fail "you can't provide a name and use --auto at the same time" s
  else if args.length = 1 ∧ auto = false then
    dumpBody W (args.getD 0 "") keysPat regex inv s
  else if auto = true then
    dumpBody W ("redis" ++ W.clock s ++ ".rdmp") keysPat regex inv s
  else if args.length > 1 then
    fail "to many file names" s
  else
    dumpBody W "" keysPat regex inv s

/-! ## The pipe command (main.go:141-151) -/

/-- The loop of main.go:144-149.  Returns the calls made, whether the loop ran to
its end, and the state of the world. -/
def pipeLoop {σ : Type} (W : World σ) : List String → σ → List Event × Bool × σ
  | [], s => ([], true, s)
  | k :: ks, s =>
    match W.dumpKey k s with
    | none => ([Event.dumpKey k none], false, s)
    | some ((ok, kd), s1) =>
      if ok = true then
        match W.genRespProto "RESTORE" kd.Key kd.Pttl kd.Dump s1 with
        | none =>
          ([Event.dumpKey k (some (ok, kd)),
            Event.genRespProto "RESTORE" kd.Key kd.Pttl kd.Dump none], false, s1)
        | some s2 =>
          let r := pipeLoop W ks s2
          (Event.dumpKey k (some (ok, kd)) ::
            Event.genRespProto "RESTORE" kd.Key kd.Pttl kd.Dump (some ()) :: r.1, r.2)
      else
        let r := pipeLoop W ks s1
        (Event.dumpKey k (some (ok, kd)) :: r.1, r.2)

/-- The pipe action (main.go:141-151). -/
def pipeAction {σ : Type} (W : World σ) (keysPat regex : String) (inv : Bool)
    (s : σ) : Run σ :=
  match W.getKeys keysPat regex inv s with
  | none => ⟨[Event.getKeys keysPat regex inv none], Outcome.exited, s⟩
  | some ((keys, keysC), s1) =>
    Run.after [Event.getKeys keysPat regex inv (some (keys, keysC))] <|
    match pipeLoop W keys s1 with
    | (tl, false, s2) => ⟨tl, Outcome.exited, s2⟩
    | (tl, true, s2) => ⟨tl, Outcome.done, s2⟩

/-! ## The restore command (main.go:178-230) -/

/-- The loop of main.go:219-227: `n` is the number of iterations left (the loop
variable runs from 0 up to `hd.Keys`); the test on `dry` is made twice, as in
the source.  Returns the calls made, the final value of `keysC` (`none` when a
helper ended the process) and the state of the world. -/
def restoreLoop {σ : Type} (W : World σ) (rd : Reader) (dry del ignor : Bool) :
    Nat → Int → σ → List Event × Option Int × σ
  | 0, keysC, s => ([], some keysC, s)
  | n + 1, keysC, s =>
    match W.readDump rd s with
    | none => ([Event.barIncrement, Event.readDump rd none], none, s)
    | some ((b, d), s1) =>
      if dry = false then
        if dry = false then
          match W.restoreKey d del ignor s1 with
          | none =>
            ([Event.barIncrement, Event.readDump rd (some (b, d)),
              Event.restoreKey d del ignor none], none, s1)
          | some (c, s2) =>
            let r := restoreLoop W rd dry del ignor n (addInt W.intBits keysC c) s2
            (Event.barIncrement :: Event.readDump rd (some (b, d)) ::
              Event.restoreKey d del ignor (some c) :: r.1, r.2)
        else
          let r := restoreLoop W rd dry del ignor n keysC s1
          (Event.barIncrement :: Event.readDump rd (some (b, d)) :: r.1, r.2)
      else
        let r := restoreLoop W rd dry del ignor n keysC s1
        (Event.barIncrement :: Event.readDump rd (some (b, d)) :: r.1, r.2)

/-- The record loop and the final report (main.go:217-229). -/
def restoreRecords {σ : Type} (W : World σ) (fileName : String) (rd : Reader)
    (hd : Header) (dry del ignor : Bool) (s : σ) : Run σ :=
  Run.after [Event.barStart (wrapInt W.intBits hd.Keys)] <|
  match restoreLoop W rd dry del ignor hd.Keys 0 s with
  | (tl, none, s1) => ⟨tl, Outcome.exited, s1⟩
  | (tl, some keysC, s1) =>
    ⟨tl ++ [Event.finishPrint (Report.restore fileName keysC)], Outcome.done, s1⟩

/-- The part of the restore action after the input is opened (main.go:210-229):
the header, the optional FLUSHDB, the records. -/
def restoreBody {σ : Type} (W : World σ) (fileName : String) (rd : Reader)
    (dry flush del ignor : Bool) (s : σ) : Run σ :=
  match W.readHeader rd s with
  | none => ⟨[Event.readHeader rd none], Outcome.exited, s⟩
  | some (hd, s1) =>
    Run.after [Event.readHeader rd (some hd)] <|
    if dry = false ∧ flush = true then
      match W.cmd "FLUSHDB" s1 with
      | none => ⟨[Event.cmd "FLUSHDB" none], Outcome.exited, s1⟩
      | some (err, s2) =>
        Run.after [Event.cmd "FLUSHDB" (some err)] <|
        match checkErr err "FLUSHDB" with
        | some o => ⟨[], o, s2⟩
        | none => restoreRecords W fileName rd hd dry del ignor s2
    else
      restoreRecords W fileName rd hd dry del ignor s1

/-- The restore action (main.go:178-230): the validation of the flags and of the
positional arguments, the choice of the input, then the body. -/
def restoreAction {σ : Type} (W : World σ) (args : List String)
    (dry flush del ignor stdin : Bool) (s : σ) : Run σ :=
  if flush = true ∧ del = true then
    fail "flush or delete?" s
  else if args.length = 0 ∧ stdin = false then
    fail "no file name provided" s
  else if args.length > 0 ∧ stdin = true then
    fail "can't use --stdin with filename" s
  else if args.length > 1 then
    fail "to many file names" s
  else if stdin = true then
    restoreBody W "STDIN" Reader.stdin dry flush del ignor s
  else
    match W.openFile (args.getD 0 "") s with
    | ((h, err), s1) =>
      Run.after [Event.openFile (args.getD 0 "") h err] <|
      match checkErr err ("open r " ++ args.getD 0 "") with
      | some o => ⟨[], o, s1⟩
      | none => restoreBody W (args.getD 0 "") (Reader.file h) dry flush del ignor s1

/-! ## Observations on traces -/

/-- The record handed to `writeDump`, for a `writeDump` call. -/
def Event.written : Event → Option KeyDump
  | Event.writeDump _ kd _ => some kd
  | _ => none

/-- The key and the returned pair `(ok, kd)` of a `dumpKey` call that returned. -/
def Event.capture : Event → Option (String × Bool × KeyDump)
  | Event.dumpKey k (some (ok, kd)) => some (k, ok, kd)
  | _ => none

/-- The key of a `dumpKey` call. -/
def Event.captureKey : Event → Option String
  | Event.dumpKey k _ => some k
  | _ => none

/-- The command name and the `(key, ttl, payload)` triple handed to `genRespProto`. -/
def Event.resp : Event → Option (String × KeyDump)
  | Event.genRespProto c key ttl payload _ => some (c, ⟨key, ttl, payload⟩)
  | _ => none

/-- The value returned by a `restoreKey` call that returned. -/
def Event.restored : Event → Option Int
  | Event.restoreKey _ _ _ (some c) => some c
  | _ => none

/-- The reader of a `readDump` call. -/
def Event.readFrom : Event → Option Reader
  | Event.readDump rd _ => some rd
  | _ => none

/-- The name of a command sent through the store client. -/
def Event.cmdName : Event → Option String
  | Event.cmd name _ => some name
  | _ => none

/-- Calls that send a command to the store on the restore side: a client command
(FLUSHDB) or `restoreKey` (DEL and RESTORE). -/
def Event.isStoreWrite : Event → Bool
  | Event.cmd _ _ => true
  | Event.restoreKey _ _ _ _ => true
  | _ => false

/-- Calls that read or restore a record. -/
def Event.isRecordCall : Event → Bool
  | Event.readDump _ _ => true
  | Event.restoreKey _ _ _ _ => true
  | _ => false

/-- Calls that create, open, position or write a file. -/
def Event.isFileCall : Event → Bool
  | Event.create _ _ _ => true
  | Event.openFile _ _ _ => true
  | Event.writeHeader _ _ _ => true
  | Event.writeDump _ _ _ => true
  | Event.seek _ _ _ _ => true
  | _ => false

/-- Calls that reach the store or the file system: everything except `fail`
and the progress bar. -/
def Event.isEffect : Event → Bool
  | Event.fail _ => false
  | Event.barStart _ => false
  | Event.barIncrement => false
  | Event.finishPrint _ => false
  | _ => true

/-- A helper call that ended the process instead of returning. -/
def Event.isExit : Event → Bool
  | Event.getKeys _ _ _ none => true
  | Event.writeHeader _ _ none => true
  | Event.dumpKey _ none => true
  | Event.writeDump _ _ none => true
  | Event.genRespProto _ _ _ _ none => true
  | Event.readHeader _ none => true
  | Event.cmd _ none => true
  | Event.readDump _ none => true
  | Event.restoreKey _ _ _ none => true
  | _ => false

/-- The records handed to `writeDump`, in call order. -/
def writeDumpCalls (t : List Event) : List KeyDump :=
  t.filterMap Event.written

/-- The `dumpKey` calls that returned, in call order, with what they returned. -/
def captures (t : List Event) : List (String × Bool × KeyDump) :=
  t.filterMap Event.capture

/-- The records of the captures that succeeded (`ok = true`). -/
def succeeded (cs : List (String × Bool × KeyDump)) : List KeyDump :=
  cs.filterMap fun c => if c.2.1 = true then some c.2.2 else none

/-- The number of captures that failed (`ok = false`). -/
def failedCount (cs : List (String × Bool × KeyDump)) : Nat :=
  (cs.filter fun c => c.2.1 = false).length

/-- The command names and triples handed to `genRespProto`, in call order. -/
def respCalls (t : List Event) : List (String × KeyDump) :=
  t.filterMap Event.resp

/-- The values returned by the `restoreKey` calls, in call order. -/
def restoreResults (t : List Event) : List Int :=
  t.filterMap Event.restored

/-- The readers of the `readDump` calls, in call order. -/
def readDumpCalls (t : List Event) : List Reader :=
  t.filterMap Event.readFrom

/-- The calls of one iteration of the restore loop without dry-run, for each
record `(n, d, c)`: the bytes read, the record read, the value `restoreKey`
returned. -/
def interleaved (rd : Reader) (del ignor : Bool) : List (Int × KeyDump × Int) → List Event
  | [] => []
  | (n, d, c) :: rs =>
    Event.barIncrement :: Event.readDump rd (some (n, d)) ::
      Event.restoreKey d del ignor (some c) :: interleaved rd del ignor rs

/-- The calls of the restore loop with dry-run, for each record `(n, d)` read: the
bytes read and the record. -/
def scanned (rd : Reader) : List (Int × KeyDump) → List Event
  | [] => []
  | (n, d) :: rs =>
    Event.barIncrement :: Event.readDump rd (some (n, d)) :: scanned rd rs

/-! ## What the outside world yields -/

/-- The records the input yields to `n` successive `readDump` calls from the state
`s`, with the state after the last call; `none` when one of the calls ends the
process. -/
def readAll {σ : Type} (W : World σ) (rd : Reader) : Nat → σ → Option (List (Int × KeyDump) × σ)
  | 0, s => some ([], s)
  | n + 1, s =>
    match W.readDump rd s with
    | none => none
    | some (r, s1) =>
      match readAll W rd n s1 with
      | none => none
      | some (rs, s2) => some (r :: rs, s2)

/-- The records the input yields to `n` successive `readDump` calls from the state
`s` when each record read is handed to `restoreKey` before the next is read,
each with the value `restoreKey` returned, and the state after the last call;
`none` when one of the calls ends the process. -/
def replayAll {σ : Type} (W : World σ) (rd : Reader) (del ignor : Bool) :
    Nat → σ → Option (List (Int × KeyDump × Int) × σ)
  | 0, s => some ([], s)
  | n + 1, s =>
    match W.readDump rd s with
    | none => none
    | some ((b, d), s1) =>
      match W.restoreKey d del ignor s1 with
      | none => none
      | some (c, s2) =>
        match replayAll W rd del ignor n s2 with
        | none => none
        | some (rs, s3) => some ((b, d, c) :: rs, s3)

/-- The input of a restore invocation is ready: either standard input is asked for
and no file name is given, or standard input is not asked for, exactly one file
name is given and `os.Open` opens it without error; `rd` is the reader, `s1`
the state of the world once the input is open. -/
def InputReady {σ : Type} (W : World σ) (args : List String) (stdin : Bool) (s : σ)
    (fileName : String) : Reader → σ → Prop
  | Reader.stdin, s1 => stdin = true ∧ args = [] ∧ fileName = "STDIN" ∧ s1 = s
  | Reader.file h, s1 =>
    stdin = false ∧ args = [fileName] ∧ W.openFile fileName s = ((h, none), s1)

/-- The call that opens the input: none for standard input, a successful `os.Open`
for a file. -/
def openingCalls (fileName : String) : Reader → List Event
  | Reader.stdin => []
  | Reader.file h => [Event.openFile fileName h none]

/-- The store accepts the FLUSHDB the flags ask for: with `flush` set the client
replies without error and leaves the state `s3`; without it nothing is sent. -/
def Flushed {σ : Type} (W : World σ) (flush : Bool) (s2 s3 : σ) : Prop :=
  if flush = true then W.cmd "FLUSHDB" s2 = some (none, s3) else s3 = s2

/-- The accepted FLUSHDB call, when `flush` is set. -/
def flushCalls (flush : Bool) : List Event :=
  if flush = true then [Event.cmd "FLUSHDB" (some none)] else []

/-! ## A concrete world -/

/-- The state of the example world: the keys that expired since enumeration, the
records written so far, the records still to be read. -/
structure DemoState where
  gone : List String
  written : List KeyDump
  pending : List KeyDump
deriving DecidableEq, Repr

/-- An example world on a 64-bit platform: the store enumerates the keys
a, b, c; a capture fails for the keys in `gone`; the file to restore holds
the records in `pending`; restoring the key b is an ignored conflict. -/
def demoWorld : World DemoState where
  intBits := 64
  clock := fun _ => "20240102030405"
  getKeys := fun _ _ _ s => some ((["a", "b", "c"], 3), s)
  create := fun _ s => ((3, none), s)
  openFile := fun name s =>
    if name = "missing" then ((0, some "no such file"), s) else ((4, none), s)
  writeHeader := fun _ _ s => some (8, s)
  dumpKey := fun k s => some ((!(s.gone.contains k), ⟨k, -1, [1, 2]⟩), s)
  writeDump := fun _ kd s => some (10, { s with written := s.written ++ [kd] })
  seek := fun _ _ _ s => (none, s)
  genRespProto := fun _ _ _ _ s => some s
  readHeader := fun _ s => some (⟨s.pending.length⟩, s)
  cmd := fun _ s => some (none, s)
  readDump := fun _ s =>
    match s.pending with
    | [] => none
    | d :: ds => some ((1, d), { s with pending := ds })
  restoreKey := fun d _ _ s => some (if d.Key = "b" then 0 else 1, s)

/-- A state of the example world: the key b has expired, the file holds two
records. -/
def demoState : DemoState :=
  ⟨["b"], [], [⟨"a", -1, [1, 2]⟩, ⟨"b", 5000, [3]⟩]⟩

/-- A capture outcome for every key: the key b has expired, every other key is
captured without expiry. -/
def steadyCapture (k : String) : Bool × KeyDump :=
  (k != "b", ⟨k, -1, [1, 2]⟩)

/-- The example world with four enumerated keys a, b, c, d and captures that do not
depend on the state: the capture of the key `k` always yields
`steadyCapture k`. -/
def steadyWorld : World DemoState :=
  { demoWorld with
    getKeys := fun _ _ _ s => some ((["a", "b", "c", "d"], 4), s)
    dumpKey := fun k s => some (steadyCapture k, s) }

/-! ## Go integer arithmetic: lemmas -/

theorem wrapInt_add_left (w : Nat) (a b : Int) :
    wrapInt w (wrapInt w a + b) = wrapInt w (a + b) := by
  unfold wrapInt
  exact Int.bmod_add_bmod_congr

theorem wrapInt_zero (w : Nat) : wrapInt w 0 = 0 := by
  unfold wrapInt
  exact Int.bmod_zero

theorem wrapInt_of_range (w : Nat) (x : Int) (h0 : 0 ≤ x) (h1 : x < 2 ^ (w - 1)) :
    wrapInt w x = x := by
  unfold wrapInt
  have hm : (((2 ^ w : Nat) : Int) = 1 ∧ (2 : Int) ^ (w - 1) = 1) ∨
      ((2 ^ w : Nat) : Int) = 2 * 2 ^ (w - 1) := by
    cases w with
    | zero => left; exact ⟨rfl, rfl⟩
    | succ n => right; simp [pow_succ, mul_comm]
  have hside : x % ((2 ^ w : Nat) : Int) < (((2 ^ w : Nat) : Int) + 1) / 2 ∧
      x % ((2 ^ w : Nat) : Int) = x := by
    generalize ((2 ^ w : Nat) : Int) = m at hm
    generalize (2 : Int) ^ (w - 1) = h at h1 hm
    have hlt : x < m := by
      rcases hm with e | e <;> omega
    have hmod : x % m = x := Int.emod_eq_of_lt h0 hlt
    refine ⟨?_, hmod⟩
    rw [hmod]
    rcases hm with e | e <;> omega
  rw [Int.bmod_pos x (2 ^ w) hside.1, hside.2]

theorem addInt_of_range (w : Nat) (a b : Int) (h0 : 0 ≤ a + b) (h1 : a + b < 2 ^ (w - 1)) :
    addInt w a b = a + b :=
  wrapInt_of_range w (a + b) h0 h1

/-! ## The dump loop: lemmas -/

theorem dumpLoop_nil {σ : Type} (W : World σ) (file : Nat) (v : DumpVars) (s : σ) :
    dumpLoop W file [] v s = ([], some v, s) := by
  simp [dumpLoop]

theorem dumpLoop_cons_exit {σ : Type} (W : World σ) (file : Nat) (k : String)
    (ks : List String) (v : DumpVars) (s : σ) (h : W.dumpKey k s = none) :
    dumpLoop W file (k :: ks) v s =
      ([Event.barIncrement, Event.dumpKey k none], none, s) := by
  simp [dumpLoop, h]

theorem dumpLoop_cons_failed {σ : Type} (W : World σ) (file : Nat) (k : String)
    (ks : List String) (v : DumpVars) (s s1 : σ) (kd : KeyDump)
    (h : W.dumpKey k s = some ((false, kd), s1)) :
    dumpLoop W file (k :: ks) v s =
      (Event.barIncrement :: Event.dumpKey k (some (false, kd)) ::
        (dumpLoop W file ks { v with expired := addInt W.intBits v.expired 1 } s1).1,
       (dumpLoop W file ks { v with expired := addInt W.intBits v.expired 1 } s1).2) := by
  simp [dumpLoop, h]

theorem dumpLoop_cons_write_exit {σ : Type} (W : World σ) (file : Nat) (k : String)
    (ks : List String) (v : DumpVars) (s s1 : σ) (kd : KeyDump)
    (h : W.dumpKey k s = some ((true, kd), s1)) (hw : W.writeDump file kd s1 = none) :
    dumpLoop W file (k :: ks) v s =
      ([Event.barIncrement, Event.dumpKey k (some (true, kd)),
        Event.writeDump file kd none], none, s1) := by
  simp [dumpLoop, h, hw]

theorem dumpLoop_cons_written {σ : Type} (W : World σ) (file : Nat) (k : String)
    (ks : List String) (v : DumpVars) (s s1 s2 : σ) (kd : KeyDump) (b : Int)
    (h : W.dumpKey k s = some ((true, kd), s1))
    (hw : W.writeDump file kd s1 = some (b, s2)) :
    dumpLoop W file (k :: ks) v s =
      (Event.barIncrement :: Event.dumpKey k (some (true, kd)) ::
        Event.writeDump file kd (some b) ::
        (dumpLoop W file ks { v with totalBytes := addInt W.intBits v.totalBytes b,
                                     keysC := addInt W.intBits v.keysC 1 } s2).1,
       (dumpLoop W file ks { v with totalBytes := addInt W.intBits v.totalBytes b,
                                    keysC := addInt W.intBits v.keysC 1 } s2).2) := by
  simp [dumpLoop, h, hw]

/-- Case analysis on one iteration of the dump loop. -/
theorem dumpLoop_cases {σ : Type} (W : World σ) (file : Nat) (k : String) (s : σ) :
    W.dumpKey k s = none ∨
    (∃ kd s1, W.dumpKey k s = some ((false, kd), s1)) ∨
    (∃ kd s1, W.dumpKey k s = some ((true, kd), s1) ∧ W.writeDump file kd s1 = none) ∨
    (∃ kd s1 b s2, W.dumpKey k s = some ((true, kd), s1) ∧
      W.writeDump file kd s1 = some (b, s2)) := by
  cases hd : W.dumpKey k s with
  | none => exact Or.inl rfl
  | some p =>
    obtain ⟨⟨ok, kd⟩, s1⟩ := p
    cases ok with
    | false => exact Or.inr (Or.inl ⟨kd, s1, rfl⟩)
    | true =>
      cases hw : W.writeDump file kd s1 with
      | none => exact Or.inr (Or.inr (Or.inl ⟨kd, s1, rfl, hw⟩))
      | some q =>
        obtain ⟨b, s2⟩ := q
        exact Or.inr (Or.inr (Or.inr ⟨kd, s1, b, s2, rfl, hw⟩))

theorem dumpLoop_writes {σ : Type} (W : World σ) (file : Nat) (keys : List String)
    (v : DumpVars) (s : σ) :
    writeDumpCalls (dumpLoop W file keys v s).1 =
      succeeded (captures (dumpLoop W file keys v s).1) := by
  induction keys generalizing v s with
  | nil => simp [dumpLoop_nil, writeDumpCalls, captures, succeeded]
  | cons k ks ih =>
    rcases dumpLoop_cases W file k s with h | ⟨kd, s1, h⟩ | ⟨kd, s1, h, hw⟩ |
      ⟨kd, s1, b, s2, h, hw⟩
    · simp [dumpLoop_cons_exit _ _ _ _ _ _ h, writeDumpCalls, captures, succeeded,
        Event.written, Event.capture]
    · have := ih { v with expired := addInt W.intBits v.expired 1 } s1
      simp only [writeDumpCalls, captures, succeeded] at this
      simp [dumpLoop_cons_failed _ _ _ _ _ _ _ _ h, writeDumpCalls, captures, succeeded,
        Event.written, Event.capture, this]
    · simp [dumpLoop_cons_write_exit _ _ _ _ _ _ _ _ h hw, writeDumpCalls, captures,
        succeeded, Event.written, Event.capture]
    · have := ih { v with totalBytes := addInt W.intBits v.totalBytes b,
                          keysC := addInt W.intBits v.keysC 1 } s2
      simp only [writeDumpCalls, captures, succeeded] at this
      simp [dumpLoop_cons_written _ _ _ _ _ _ _ _ _ _ h hw, writeDumpCalls, captures,
        succeeded, Event.written, Event.capture, this]

theorem dumpLoop_exit {σ : Type} (W : World σ) (file : Nat) (keys : List String)
    (v : DumpVars) (s : σ) :
    (dumpLoop W file keys v s).2.1 = none ↔
      ∃ e ∈ (dumpLoop W file keys v s).1, e.isExit = true := by
  induction keys generalizing v s with
  | nil => simp [dumpLoop_nil]
  | cons k ks ih =>
    rcases dumpLoop_cases W file k s with h | ⟨kd, s1, h⟩ | ⟨kd, s1, h, hw⟩ |
      ⟨kd, s1, b, s2, h, hw⟩
    · simp [dumpLoop_cons_exit _ _ _ _ _ _ h, Event.isExit]
    · have := ih { v with expired := addInt W.intBits v.expired 1 } s1
      simp [dumpLoop_cons_failed _ _ _ _ _ _ _ _ h, Event.isExit, this]
    · simp [dumpLoop_cons_write_exit _ _ _ _ _ _ _ _ h hw, Event.isExit]
    · have := ih { v with totalBytes := addInt W.intBits v.totalBytes b,
                          keysC := addInt W.intBits v.keysC 1 } s2
      simp [dumpLoop_cons_written _ _ _ _ _ _ _ _ _ _ h hw, Event.isExit, this]

theorem dumpLoop_called_keys {σ : Type} (W : World σ) (file : Nat) (keys : List String)
    (v : DumpVars) (s : σ) :
    (dumpLoop W file keys v s).1.filterMap Event.captureKey <+: keys := by
  induction keys generalizing v s with
  | nil => simp [dumpLoop_nil]
  | cons k ks ih =>
    rcases dumpLoop_cases W file k s with h | ⟨kd, s1, h⟩ | ⟨kd, s1, h, hw⟩ |
      ⟨kd, s1, b, s2, h, hw⟩
    · simp [dumpLoop_cons_exit _ _ _ _ _ _ h, Event.captureKey, List.cons_prefix_cons]
    · have := ih { v with expired := addInt W.intBits v.expired 1 } s1
      simp [dumpLoop_cons_failed _ _ _ _ _ _ _ _ h, Event.captureKey,
        List.cons_prefix_cons, this]
    · simp [dumpLoop_cons_write_exit _ _ _ _ _ _ _ _ h hw, Event.captureKey,
        List.cons_prefix_cons]
    · have := ih { v with totalBytes := addInt W.intBits v.totalBytes b,
                          keysC := addInt W.intBits v.keysC 1 } s2
      simp [dumpLoop_cons_written _ _ _ _ _ _ _ _ _ _ h hw, Event.captureKey,
        List.cons_prefix_cons, this]

theorem dumpLoop_done_keys {σ : Type} (W : World σ) (file : Nat) (keys : List String)
    (v v1 : DumpVars) (s : σ) (h1 : (dumpLoop W file keys v s).2.1 = some v1) :
    (dumpLoop W file keys v s).1.filterMap Event.captureKey = keys ∧
      (captures (dumpLoop W file keys v s).1).map (fun c => c.1) = keys := by
  induction keys generalizing v s with
  | nil => simp [dumpLoop_nil, captures]
  | cons k ks ih =>
    rcases dumpLoop_cases W file k s with h | ⟨kd, s1, h⟩ | ⟨kd, s1, h, hw⟩ |
      ⟨kd, s1, b, s2, h, hw⟩
    · simp [dumpLoop_cons_exit _ _ _ _ _ _ h] at h1
    · rw [dumpLoop_cons_failed _ _ _ _ _ _ _ _ h] at h1 ⊢
      have := ih _ _ h1
      simp only [captures] at this ⊢
      simp [Event.captureKey, Event.capture, this]
    · simp [dumpLoop_cons_write_exit _ _ _ _ _ _ _ _ h hw] at h1
    · rw [dumpLoop_cons_written _ _ _ _ _ _ _ _ _ _ h hw] at h1 ⊢
      have := ih _ _ h1
      simp only [captures] at this ⊢
      simp [Event.captureKey, Event.capture, this]

theorem dumpLoop_done_counts {σ : Type} (W : World σ) (file : Nat) (keys : List String)
    (v v1 : DumpVars) (s : σ) (h1 : (dumpLoop W file keys v s).2.1 = some v1)
    (hk : 0 ≤ v.keysC) (he : 0 ≤ v.expired)
    (hr : v.keysC + v.expired + keys.length < 2 ^ (W.intBits - 1)) :
    v1.keysC = v.keysC + (succeeded (captures (dumpLoop W file keys v s).1)).length ∧
      v1.expired = v.expired + failedCount (captures (dumpLoop W file keys v s).1) ∧
      (succeeded (captures (dumpLoop W file keys v s).1)).length +
        failedCount (captures (dumpLoop W file keys v s).1) = keys.length := by
  induction keys generalizing v s with
  | nil =>
    simp [dumpLoop_nil] at h1
    simp [dumpLoop_nil, captures, succeeded, failedCount, h1]
  | cons k ks ih =>
    simp only [List.length_cons, Nat.cast_add, Nat.cast_one] at hr
    rcases dumpLoop_cases W file k s with h | ⟨kd, s1, h⟩ | ⟨kd, s1, h, hw⟩ |
      ⟨kd, s1, b, s2, h, hw⟩
    · simp [dumpLoop_cons_exit _ _ _ _ _ _ h] at h1
    · rw [dumpLoop_cons_failed _ _ _ _ _ _ _ _ h] at h1 ⊢
      have hadd : addInt W.intBits v.expired 1 = v.expired + 1 :=
        addInt_of_range _ _ _ (by omega) (by omega)
      have := ih _ _ h1 hk (by simp only [hadd]; omega) (by simp only [hadd]; omega)
      simp only [captures, succeeded, failedCount, hadd] at this ⊢
      simp [Event.capture] at this ⊢
      omega
    · simp [dumpLoop_cons_write_exit _ _ _ _ _ _ _ _ h hw] at h1
    · rw [dumpLoop_cons_written _ _ _ _ _ _ _ _ _ _ h hw] at h1 ⊢
      have hadd : addInt W.intBits v.keysC 1 = v.keysC + 1 :=
        addInt_of_range _ _ _ (by omega) (by omega)
      have := ih _ _ h1 (by simp only [hadd]; omega) he (by simp only [hadd]; omega)
      simp only [captures, succeeded, failedCount, hadd] at this ⊢
      simp [Event.capture] at this ⊢
      omega

/-! ## The dump action: lemmas -/

@[simp] theorem Run.after_trace {σ : Type} (es : List Event) (r : Run σ) :
    (Run.after es r).trace = es ++ r.trace := rfl

@[simp] theorem Run.after_outcome {σ : Type} (es : List Event) (r : Run σ) :
    (Run.after es r).outcome = r.outcome := rfl

@[simp] theorem Run.after_state {σ : Type} (es : List Event) (r : Run σ) :
    (Run.after es r).state = r.state := rfl

/-- The shape of a dump body that ran to its end. -/
theorem dumpBody_done {σ : Type} (W : World σ) (fileName pat regex : String) (inv : Bool)
    (s : σ) (h : (dumpBody W fileName pat regex inv s).outcome = Outcome.done) :
    ∃ keys kc s1 file s2 b0 s3 loopT v s4 b,
      W.getKeys pat regex inv s = some ((keys, kc), s1) ∧
      W.create fileName s1 = ((file, none), s2) ∧
      W.writeHeader file kc s2 = some (b0, s3) ∧
      dumpLoop W file keys ⟨b0, 0, 0⟩ s3 = (loopT, some v, s4) ∧
      (dumpBody W fileName pat regex inv s).trace =
        Event.getKeys pat regex inv (some (keys, kc)) :: Event.create fileName file none ::
          Event.barStart kc :: Event.writeHeader file kc (some b0) ::
          (loopT ++ [Event.seek file 0 0 none, Event.writeHeader file v.keysC (some b),
            Event.finishPrint (Report.dump fileName v.keysC v.expired v.totalBytes)]) := by
  unfold dumpBody at h ⊢
  cases hg : W.getKeys pat regex inv s with
  | none => simp [hg] at h
  | some p =>
    obtain ⟨⟨keys, kc⟩, s1⟩ := p
    simp only [hg] at h ⊢
    cases hc : W.create fileName s1 with
    | mk fe s2 =>
      obtain ⟨file, err⟩ := fe
      simp only [hc] at h ⊢
      cases err with
      | some e => simp [checkErr] at h
      | none =>
        simp only [checkErr] at h ⊢
        cases hw : W.writeHeader file kc s2 with
        | none => simp [hw] at h
        | some q =>
          obtain ⟨b0, s3⟩ := q
          simp only [hw] at h ⊢
          cases hl : dumpLoop W file keys ⟨b0, 0, 0⟩ s3 with
          | mk tl r =>
            obtain ⟨ov, s4⟩ := r
            cases ov with
            | none => simp [hl] at h
            | some v =>
              simp only [hl] at h ⊢
              cases hs : W.seek file 0 0 s4 with
              | mk e s5 =>
                cases e with
                | some e => simp [hs] at h
                | none =>
                  simp only [hs] at h ⊢
                  cases hf : W.writeHeader file v.keysC s5 with
                  | none => simp [hf] at h
                  | some q2 =>
                    obtain ⟨b, s6⟩ := q2
                    exact ⟨keys, kc, s1, file, s2, b0, s3, tl, v, s4, b, rfl, hc, hw,
                      hl, by simp [hf]⟩

/-- The dump action either fails on its arguments or runs the body on the file
name the switch chose. -/
theorem dumpAction_cases {σ : Type} (W : World σ) (args : List String) (auto : Bool)
    (pat regex : String) (inv : Bool) (s : σ) :
    (∃ msg, dumpAction W args auto pat regex inv s = fail msg s) ∨
    (∃ fileName, dumpAction W args auto pat regex inv s =
      dumpBody W fileName pat regex inv s) := by
  unfold dumpAction
  split_ifs
  · exact Or.inl ⟨_, rfl⟩
  · exact Or.inl ⟨_, rfl⟩
  · exact Or.inr ⟨_, rfl⟩
  · exact Or.inr ⟨_, rfl⟩
  · exact Or.inl ⟨_, rfl⟩
  · exact Or.inr ⟨_, rfl⟩

theorem dumpBody_head {σ : Type} (W : World σ) (fileName pat regex : String) (inv : Bool)
    (s : σ) :
    (dumpBody W fileName pat regex inv s).trace.head? =
      some (Event.getKeys pat regex inv ((W.getKeys pat regex inv s).map Prod.fst)) := by
  unfold dumpBody
  cases hg : W.getKeys pat regex inv s with
  | none => simp
  | some p =>
    obtain ⟨⟨keys, kc⟩, s1⟩ := p
    simp

theorem dumpBody_create {σ : Type} (W : World σ) (fileName pat regex : String) (inv : Bool)
    (s s1 s2 : σ) (keys : List String) (kc : Int) (file : Nat) (err : GoError)
    (hg : W.getKeys pat regex inv s = some ((keys, kc), s1))
    (hc : W.create fileName s1 = ((file, err), s2)) :
    (dumpBody W fileName pat regex inv s).trace[1]? =
      some (Event.create fileName file err) := by
  unfold dumpBody
  simp only [hg, hc]
  simp

theorem dumpBody_effect {σ : Type} (W : World σ) (fileName pat regex : String) (inv : Bool)
    (s : σ) : ∃ e ∈ (dumpBody W fileName pat regex inv s).trace, e.isEffect = true := by
  have h := dumpBody_head W fileName pat regex inv s
  cases ht : (dumpBody W fileName pat regex inv s).trace with
  | nil => simp [ht] at h
  | cons e es =>
    simp [ht] at h
    exact ⟨e, by simp, by rw [h]; rfl⟩

/-- In every dump run, completed or not, the records handed to `writeDump` are the
captures that succeeded. -/
theorem dumpBody_writes {σ : Type} (W : World σ) (fileName pat regex : String) (inv : Bool)
    (s : σ) :
    writeDumpCalls (dumpBody W fileName pat regex inv s).trace =
      succeeded (captures (dumpBody W fileName pat regex inv s).trace) := by
  unfold dumpBody
  cases hg : W.getKeys pat regex inv s with
  | none => simp [writeDumpCalls, captures, succeeded, Event.written, Event.capture]
  | some p =>
    obtain ⟨⟨keys, kc⟩, s1⟩ := p
    cases hc : W.create fileName s1 with
    | mk fe s2 =>
      obtain ⟨file, err⟩ := fe
      simp only [hc]
      cases err with
      | some e => simp [checkErr, writeDumpCalls, captures, succeeded, Event.written,
          Event.capture]
      | none =>
        simp only [checkErr]
        cases hw : W.writeHeader file kc s2 with
        | none => simp [writeDumpCalls, captures, succeeded, Event.written, Event.capture]
        | some q =>
          obtain ⟨b0, s3⟩ := q
          have hlw := dumpLoop_writes W file keys ⟨b0, 0, 0⟩ s3
          cases hl : dumpLoop W file keys ⟨b0, 0, 0⟩ s3 with
          | mk tl r =>
            obtain ⟨ov, s4⟩ := r
            rw [hl] at hlw
            simp only [writeDumpCalls, captures, succeeded] at hlw
            simp only [hl]
            cases ov with
            | none =>
              simp [writeDumpCalls, captures, succeeded, Event.written, Event.capture, hlw]
            | some v =>
              cases hs : W.seek file 0 0 s4 with
              | mk e s5 =>
                simp only [hs]
                cases e with
                | some e =>
                  simp [writeDumpCalls, captures, succeeded, Event.written, Event.capture,
                    hlw]
                | none =>
                  cases hf : W.writeHeader file v.keysC s5 with
                  | none =>
                    simp [writeDumpCalls, captures, succeeded, Event.written,
                      Event.capture, hlw, hf]
                  | some q2 =>
                    simp [writeDumpCalls, captures, succeeded, Event.written,
                      Event.capture, hlw, hf]

theorem dumpAction_writes {σ : Type} (W : World σ) (args : List String) (auto : Bool)
    (pat regex : String) (inv : Bool) (s : σ) :
    writeDumpCalls (dumpAction W args auto pat regex inv s).trace =
      succeeded (captures (dumpAction W args auto pat regex inv s).trace) := by
  rcases dumpAction_cases W args auto pat regex inv s with ⟨msg, hf⟩ | ⟨fileName, hb⟩
  · rw [hf]
    simp [fail, writeDumpCalls, captures, succeeded, Event.written, Event.capture]
  · rw [hb]
    exact dumpBody_writes W fileName pat regex inv s

/-! ## The pipe command: lemmas -/

/-- One iteration of the pipe loop, by cases. -/
theorem pipeLoop_cases {σ : Type} (W : World σ) (k : String) (s : σ) :
    W.dumpKey k s = none ∨
    (∃ kd s1, W.dumpKey k s = some ((false, kd), s1)) ∨
    (∃ kd s1, W.dumpKey k s = some ((true, kd), s1) ∧
      W.genRespProto "RESTORE" kd.Key kd.Pttl kd.Dump s1 = none) ∨
    (∃ kd s1 s2, W.dumpKey k s = some ((true, kd), s1) ∧
      W.genRespProto "RESTORE" kd.Key kd.Pttl kd.Dump s1 = some s2) := by
  cases hd : W.dumpKey k s with
  | none => exact Or.inl rfl
  | some p =>
    obtain ⟨⟨ok, kd⟩, s1⟩ := p
    cases ok with
    | false => exact Or.inr (Or.inl ⟨kd, s1, rfl⟩)
    | true =>
      cases hw : W.genRespProto "RESTORE" kd.Key kd.Pttl kd.Dump s1 with
      | none => exact Or.inr (Or.inr (Or.inl ⟨kd, s1, rfl, hw⟩))
      | some s2 => exact Or.inr (Or.inr (Or.inr ⟨kd, s1, s2, rfl, hw⟩))

theorem pipeLoop_resp {σ : Type} (W : World σ) (keys : List String) (s : σ) :
    respCalls (pipeLoop W keys s).1 =
      (succeeded (captures (pipeLoop W keys s).1)).map (fun kd => ("RESTORE", kd)) := by
  induction keys generalizing s with
  | nil => simp [pipeLoop, respCalls, captures, succeeded]
  | cons k ks ih =>
    rcases pipeLoop_cases W k s with h | ⟨kd, s1, h⟩ | ⟨kd, s1, h, hw⟩ | ⟨kd, s1, s2, h, hw⟩
    · simp [pipeLoop, h, respCalls, captures, succeeded, Event.resp, Event.capture]
    · have := ih s1
      simp only [respCalls, captures, succeeded] at this
      simp [pipeLoop, h, respCalls, captures, succeeded, Event.resp, Event.capture, this]
    · simp [pipeLoop, h, hw, respCalls, captures, succeeded, Event.resp, Event.capture]
    · have := ih s2
      simp only [respCalls, captures, succeeded] at this
      simp [pipeLoop, h, hw, respCalls, captures, succeeded, Event.resp, Event.capture, this]

theorem pipeLoop_no_file {σ : Type} (W : World σ) (keys : List String) (s : σ) :
    ∀ e ∈ (pipeLoop W keys s).1, e.isFileCall = false := by
  induction keys generalizing s with
  | nil => simp [pipeLoop]
  | cons k ks ih =>
    rcases pipeLoop_cases W k s with h | ⟨kd, s1, h⟩ | ⟨kd, s1, h, hw⟩ | ⟨kd, s1, s2, h, hw⟩
    · simp [pipeLoop, h, Event.isFileCall]
    · have := ih s1
      simpa [pipeLoop, h, Event.isFileCall] using this
    · simp [pipeLoop, h, hw, Event.isFileCall]
    · have := ih s2
      simpa [pipeLoop, h, hw, Event.isFileCall] using this

/-- The trace and the outcome of the pipe action in terms of its loop. -/
theorem pipeAction_shape {σ : Type} (W : World σ) (pat regex : String) (inv : Bool) (s : σ) :
    ((pipeAction W pat regex inv s).trace = [Event.getKeys pat regex inv none] ∧
      (pipeAction W pat regex inv s).outcome = Outcome.exited) ∨
    ∃ keys kc s1, W.getKeys pat regex inv s = some ((keys, kc), s1) ∧
      (pipeAction W pat regex inv s).trace =
        Event.getKeys pat regex inv (some (keys, kc)) :: (pipeLoop W keys s1).1 ∧
      (pipeAction W pat regex inv s).outcome =
        (if (pipeLoop W keys s1).2.1 = true then Outcome.done else Outcome.exited) := by
  unfold pipeAction
  cases hg : W.getKeys pat regex inv s with
  | none => left; simp
  | some p =>
    obtain ⟨⟨keys, kc⟩, s1⟩ := p
    right
    refine ⟨keys, kc, s1, rfl, ?_⟩
    simp only []
    cases hl : pipeLoop W keys s1 with
    | mk tl r =>
      obtain ⟨ok, s2⟩ := r
      cases ok <;> simp

/-! ## The restore loop: lemmas -/

/-- One iteration of the restore loop, by cases. -/
theorem restoreLoop_cases {σ : Type} (W : World σ) (rd : Reader) (del ignor : Bool) (s : σ) :
    W.readDump rd s = none ∨
    (∃ b d s1, W.readDump rd s = some ((b, d), s1) ∧ W.restoreKey d del ignor s1 = none) ∨
    (∃ b d s1 c s2, W.readDump rd s = some ((b, d), s1) ∧
      W.restoreKey d del ignor s1 = some (c, s2)) := by
  cases hr : W.readDump rd s with
  | none => exact Or.inl rfl
  | some p =>
    obtain ⟨⟨b, d⟩, s1⟩ := p
    cases hk : W.restoreKey d del ignor s1 with
    | none => exact Or.inr (Or.inl ⟨b, d, s1, rfl, hk⟩)
    | some q =>
      obtain ⟨c, s2⟩ := q
      exact Or.inr (Or.inr ⟨b, d, s1, c, s2, rfl, hk⟩)

theorem restoreLoop_zero {σ : Type} (W : World σ) (rd : Reader) (dry del ignor : Bool)
    (k : Int) (s : σ) : restoreLoop W rd dry del ignor 0 k s = ([], some k, s) := by
  simp [restoreLoop]

theorem restoreLoop_succ_exit {σ : Type} (W : World σ) (rd : Reader) (dry del ignor : Bool)
    (n : Nat) (k : Int) (s : σ) (h : W.readDump rd s = none) :
    restoreLoop W rd dry del ignor (n + 1) k s =
      ([Event.barIncrement, Event.readDump rd none], none, s) := by
  simp [restoreLoop, h]

theorem restoreLoop_succ_dry {σ : Type} (W : World σ) (rd : Reader) (del ignor : Bool)
    (n : Nat) (k b : Int) (d : KeyDump) (s s1 : σ)
    (h : W.readDump rd s = some ((b, d), s1)) :
    restoreLoop W rd true del ignor (n + 1) k s =
      (Event.barIncrement :: Event.readDump rd (some (b, d)) ::
        (restoreLoop W rd true del ignor n k s1).1,
       (restoreLoop W rd true del ignor n k s1).2) := by
  simp [restoreLoop, h]

theorem restoreLoop_succ_restore_exit {σ : Type} (W : World σ) (rd : Reader)
    (del ignor : Bool) (n : Nat) (k b : Int) (d : KeyDump) (s s1 : σ)
    (h : W.readDump rd s = some ((b, d), s1)) (hk : W.restoreKey d del ignor s1 = none) :
    restoreLoop W rd false del ignor (n + 1) k s =
      ([Event.barIncrement, Event.readDump rd (some (b, d)),
        Event.restoreKey d del ignor none], none, s1) := by
  simp [restoreLoop, h, hk]

theorem restoreLoop_succ_restored {σ : Type} (W : World σ) (rd : Reader)
    (del ignor : Bool) (n : Nat) (k b c : Int) (d : KeyDump) (s s1 s2 : σ)
    (h : W.readDump rd s = some ((b, d), s1))
    (hk : W.restoreKey d del ignor s1 = some (c, s2)) :
    restoreLoop W rd false del ignor (n + 1) k s =
      (Event.barIncrement :: Event.readDump rd (some (b, d)) ::
        Event.restoreKey d del ignor (some c) ::
        (restoreLoop W rd false del ignor n (addInt W.intBits k c) s2).1,
       (restoreLoop W rd false del ignor n (addInt W.intBits k c) s2).2) := by
  simp [restoreLoop, h, hk]

/-- The loop with dry-run: the counter is unchanged and every iteration reads one
record. -/
theorem restoreLoop_dry_done {σ : Type} (W : World σ) (rd : Reader) (del ignor : Bool)
    (n : Nat) (k k1 : Int) (s : σ)
    (h : (restoreLoop W rd true del ignor n k s).2.1 = some k1) :
    k1 = k ∧ ∃ recs, recs.length = n ∧
      (restoreLoop W rd true del ignor n k s).1 = scanned rd recs := by
  induction n generalizing s with
  | zero =>
    simp [restoreLoop_zero] at h
    exact ⟨h.symm, [], rfl, by simp [restoreLoop_zero, scanned]⟩
  | succ n ih =>
    cases hr : W.readDump rd s with
    | none => simp [restoreLoop_succ_exit _ _ _ _ _ _ _ _ hr] at h
    | some p =>
      obtain ⟨⟨b, d⟩, s1⟩ := p
      rw [restoreLoop_succ_dry _ _ _ _ _ _ _ _ _ _ hr] at h ⊢
      obtain ⟨hk, recs, hlen, ht⟩ := ih s1 h
      exact ⟨hk, (b, d) :: recs, by simp [hlen], by simp [scanned, ht]⟩

/-- The loop with dry-run never calls `restoreKey` or a store command. -/
theorem restoreLoop_dry_quiet {σ : Type} (W : World σ) (rd : Reader) (del ignor : Bool)
    (n : Nat) (k : Int) (s : σ) :
    ∀ e ∈ (restoreLoop W rd true del ignor n k s).1, e.isStoreWrite = false := by
  induction n generalizing s with
  | zero => simp [restoreLoop_zero]
  | succ n ih =>
    cases hr : W.readDump rd s with
    | none => simp [restoreLoop_succ_exit _ _ _ _ _ _ _ _ hr, Event.isStoreWrite]
    | some p =>
      obtain ⟨⟨b, d⟩, s1⟩ := p
      rw [restoreLoop_succ_dry _ _ _ _ _ _ _ _ _ _ hr]
      have := ih s1
      simpa [Event.isStoreWrite] using this

/-- The restore loop sends no client command. -/
theorem restoreLoop_no_cmd {σ : Type} (W : World σ) (rd : Reader) (dry del ignor : Bool)
    (n : Nat) (k : Int) (s : σ) :
    ∀ e ∈ (restoreLoop W rd dry del ignor n k s).1, e.cmdName = none := by
  induction n generalizing s k with
  | zero => simp [restoreLoop_zero]
  | succ n ih =>
    cases dry with
    | true =>
      cases hr : W.readDump rd s with
      | none => simp [restoreLoop_succ_exit _ _ _ _ _ _ _ _ hr, Event.cmdName]
      | some p =>
        obtain ⟨⟨b, d⟩, s1⟩ := p
        rw [restoreLoop_succ_dry _ _ _ _ _ _ _ _ _ _ hr]
        have := ih k s1
        simpa [Event.cmdName] using this
    | false =>
      rcases restoreLoop_cases W rd del ignor s with hr | ⟨b, d, s1, hr, hk⟩ |
        ⟨b, d, s1, c, s2, hr, hk⟩
      · simp [restoreLoop_succ_exit _ _ _ _ _ _ _ _ hr, Event.cmdName]
      · simp [restoreLoop_succ_restore_exit _ _ _ _ _ _ _ _ _ _ hr hk, Event.cmdName]
      · rw [restoreLoop_succ_restored _ _ _ _ _ _ _ _ _ _ _ _ hr hk]
        have := ih (addInt W.intBits k c) s2
        simpa [Event.cmdName] using this

theorem scanned_reads (rd : Reader) (recs : List (Int × KeyDump)) :
    readDumpCalls (scanned rd recs) = List.replicate recs.length rd ∧
      (scanned rd recs).count Event.barIncrement = recs.length ∧
      restoreResults (scanned rd recs) = [] := by
  induction recs with
  | nil => simp [scanned, readDumpCalls, restoreResults]
  | cons r rs ih =>
    obtain ⟨n, d⟩ := r
    obtain ⟨h1, h2, h3⟩ := ih
    simp only [readDumpCalls, restoreResults] at h1 h3 ⊢
    simp [scanned, Event.readFrom, Event.restored, List.replicate_succ, h1, h2, h3]

theorem interleaved_reads (rd : Reader) (del ignor : Bool)
    (recs : List (Int × KeyDump × Int)) :
    readDumpCalls (interleaved rd del ignor recs) = List.replicate recs.length rd ∧
      restoreResults (interleaved rd del ignor recs) = recs.map (fun r => r.2.2) := by
  induction recs with
  | nil => simp [interleaved, readDumpCalls, restoreResults]
  | cons r rs ih =>
    obtain ⟨n, d, c⟩ := r
    obtain ⟨h1, h2⟩ := ih
    simp only [readDumpCalls, restoreResults] at h1 h2 ⊢
    simp [interleaved, Event.readFrom, Event.restored, List.replicate_succ, h1, h2]

/-! ## The restore action: lemmas -/

/-- The trace and outcome of the record loop with its report. -/
theorem restoreRecords_shape {σ : Type} (W : World σ) (fileName : String) (rd : Reader)
    (hd : Header) (dry del ignor : Bool) (s : σ) :
    ((restoreLoop W rd dry del ignor hd.Keys 0 s).2.1 = none ∧
      (restoreRecords W fileName rd hd dry del ignor s).trace =
        Event.barStart (wrapInt W.intBits hd.Keys) ::
          (restoreLoop W rd dry del ignor hd.Keys 0 s).1 ∧
      (restoreRecords W fileName rd hd dry del ignor s).outcome = Outcome.exited) ∨
    (∃ keysC, (restoreLoop W rd dry del ignor hd.Keys 0 s).2.1 = some keysC ∧
      (restoreRecords W fileName rd hd dry del ignor s).trace =
        Event.barStart (wrapInt W.intBits hd.Keys) ::
          ((restoreLoop W rd dry del ignor hd.Keys 0 s).1 ++
            [Event.finishPrint (Report.restore fileName keysC)]) ∧
      (restoreRecords W fileName rd hd dry del ignor s).outcome = Outcome.done) := by
  unfold restoreRecords
  cases hl : restoreLoop W rd dry del ignor hd.Keys 0 s with
  | mk tl r =>
    obtain ⟨ok, s1⟩ := r
    cases ok with
    | none => left; simp
    | some k => right; exact ⟨k, by simp⟩

/-- The trace and outcome of the restore body, by cases on the header read and on
the FLUSHDB reply. -/
theorem restoreBody_shape {σ : Type} (W : World σ) (fileName : String) (rd : Reader)
    (dry flush del ignor : Bool) (s : σ) :
    ((restoreBody W fileName rd dry flush del ignor s).trace = [Event.readHeader rd none] ∧
      (restoreBody W fileName rd dry flush del ignor s).outcome = Outcome.exited) ∨
    ∃ hd s1, W.readHeader rd s = some (hd, s1) ∧
      ((¬ (dry = false ∧ flush = true) ∧
        (restoreBody W fileName rd dry flush del ignor s).trace =
          Event.readHeader rd (some hd) ::
            (restoreRecords W fileName rd hd dry del ignor s1).trace ∧
        (restoreBody W fileName rd dry flush del ignor s).outcome =
          (restoreRecords W fileName rd hd dry del ignor s1).outcome) ∨
      ((dry = false ∧ flush = true) ∧
        (restoreBody W fileName rd dry flush del ignor s).trace =
          [Event.readHeader rd (some hd), Event.cmd "FLUSHDB" none] ∧
        (restoreBody W fileName rd dry flush del ignor s).outcome = Outcome.exited) ∨
      ((dry = false ∧ flush = true) ∧ ∃ e,
        (restoreBody W fileName rd dry flush del ignor s).trace =
          [Event.readHeader rd (some hd), Event.cmd "FLUSHDB" (some (some e))] ∧
        (restoreBody W fileName rd dry flush del ignor s).outcome =
          Outcome.checkErr e "FLUSHDB") ∨
      ((dry = false ∧ flush = true) ∧ ∃ s2,
        (restoreBody W fileName rd dry flush del ignor s).trace =
          Event.readHeader rd (some hd) :: Event.cmd "FLUSHDB" (some none) ::
            (restoreRecords W fileName rd hd dry del ignor s2).trace ∧
        (restoreBody W fileName rd dry flush del ignor s).outcome =
          (restoreRecords W fileName rd hd dry del ignor s2).outcome)) := by
  unfold restoreBody
  cases hh : W.readHeader rd s with
  | none => left; simp
  | some p =>
    obtain ⟨hd, s1⟩ := p
    right
    refine ⟨hd, s1, rfl, ?_⟩
    by_cases hf : dry = false ∧ flush = true
    · right
      simp only [hf, and_self, if_true]
      cases hc : W.cmd "FLUSHDB" s1 with
      | none => left; simp
      | some q =>
        obtain ⟨err, s2⟩ := q
        right
        cases err with
        | some e => left; simp [checkErr]
        | none => right; exact ⟨trivial, s2, by simp [checkErr]⟩
    · left
      simp [hf]

/-- The restore action fails on its arguments, fails to open its input, or runs
the body on standard input or on the opened file. -/
theorem restoreAction_cases {σ : Type} (W : World σ) (args : List String)
    (dry flush del ignor stdin : Bool) (s : σ) :
    (∃ msg, restoreAction W args dry flush del ignor stdin s = fail msg s) ∨
    (¬ (flush = true ∧ del = true) ∧
      restoreAction W args dry flush del ignor stdin s =
        restoreBody W "STDIN" Reader.stdin dry flush del ignor s) ∨
    (∃ name h e,
      (restoreAction W args dry flush del ignor stdin s).trace =
        [Event.openFile name h (some e)] ∧
      (restoreAction W args dry flush del ignor stdin s).outcome =
        Outcome.checkErr e ("open r " ++ name)) ∨
    (¬ (flush = true ∧ del = true) ∧ ∃ name h s1,
      (restoreAction W args dry flush del ignor stdin s).trace =
        Event.openFile name h none ::
          (restoreBody W name (Reader.file h) dry flush del ignor s1).trace ∧
      (restoreAction W args dry flush del ignor stdin s).outcome =
        (restoreBody W name (Reader.file h) dry flush del ignor s1).outcome) := by
  unfold restoreAction
  split_ifs with h1 h2 h3 h4 h5
  · exact Or.inl ⟨_, rfl⟩
  · exact Or.inl ⟨_, rfl⟩
  · exact Or.inl ⟨_, rfl⟩
  · exact Or.inl ⟨_, rfl⟩
  · exact Or.inr (Or.inl ⟨h1, rfl⟩)
  · right; right
    cases ho : W.openFile (args.getD 0 "") s with
    | mk fe s1 =>
      obtain ⟨h, err⟩ := fe
      cases err with
      | some e => left; exact ⟨args.getD 0 "", h, e, by simp [checkErr]⟩
      | none => right; exact ⟨h1, args.getD 0 "", h, s1, by simp [checkErr]⟩

theorem filterMap_none_of_forall {α β : Type} (f : α → Option β) (l : List α)
    (h : ∀ e ∈ l, f e = none) : l.filterMap f = [] := by
  induction l with
  | nil => rfl
  | cons a as ih =>
    have ha : f a = none := h a (List.mem_cons_self a as)
    have hs : ∀ e ∈ as, f e = none := fun e he => h e (List.mem_cons_of_mem a he)
    simp [List.filterMap_cons, ha, ih hs]

theorem restoreRecords_no_cmd {σ : Type} (W : World σ) (fileName : String) (rd : Reader)
    (hd : Header) (dry del ignor : Bool) (s : σ) :
    ∀ e ∈ (restoreRecords W fileName rd hd dry del ignor s).trace, e.cmdName = none := by
  have hl := restoreLoop_no_cmd W rd dry del ignor hd.Keys 0 s
  rcases restoreRecords_shape W fileName rd hd dry del ignor s with ⟨_, ht, _⟩ |
    ⟨k, _, ht, _⟩
  · rw [ht]
    simpa [Event.cmdName] using hl
  · rw [ht]
    intro e he
    simp only [List.mem_cons, List.mem_append, List.not_mem_nil, or_false] at he
    rcases he with rfl | he | rfl
    · rfl
    · exact hl e he
    · rfl

theorem restoreRecords_dry_quiet {σ : Type} (W : World σ) (fileName : String) (rd : Reader)
    (hd : Header) (del ignor : Bool) (s : σ) :
    ∀ e ∈ (restoreRecords W fileName rd hd true del ignor s).trace,
      e.isStoreWrite = false := by
  have hl := restoreLoop_dry_quiet W rd del ignor hd.Keys 0 s
  rcases restoreRecords_shape W fileName rd hd true del ignor s with ⟨_, ht, _⟩ |
    ⟨k, _, ht, _⟩
  · rw [ht]
    simpa [Event.isStoreWrite] using hl
  · rw [ht]
    intro e he
    simp only [List.mem_cons, List.mem_append, List.not_mem_nil, or_false] at he
    rcases he with rfl | he | rfl
    · rfl
    · exact hl e he
    · rfl

/-- The shape of a restore body that ran to its end. -/
theorem restoreBody_done {σ : Type} (W : World σ) (fileName : String) (rd : Reader)
    (dry flush del ignor : Bool) (s : σ)
    (h : (restoreBody W fileName rd dry flush del ignor s).outcome = Outcome.done) :
    ∃ hd s0 keysC,
      (restoreLoop W rd dry del ignor hd.Keys 0 s0).2.1 = some keysC ∧
      (restoreBody W fileName rd dry flush del ignor s).trace =
        Event.readHeader rd (some hd) ::
          ((if dry = false ∧ flush = true then [Event.cmd "FLUSHDB" (some none)] else []) ++
            Event.barStart (wrapInt W.intBits hd.Keys) ::
              ((restoreLoop W rd dry del ignor hd.Keys 0 s0).1 ++
                [Event.finishPrint (Report.restore fileName keysC)])) := by
  rcases restoreBody_shape W fileName rd dry flush del ignor s with ⟨_, ho⟩ |
    ⟨hd, s1, _, ⟨hf, ht, ho⟩ | ⟨hf, ht, ho⟩ | ⟨hf, e, ht, ho⟩ | ⟨hf, s2, ht, ho⟩⟩
  · rw [ho] at h; cases h
  · rw [ho] at h
    rcases restoreRecords_shape W fileName rd hd dry del ignor s1 with ⟨_, _, hx⟩ |
      ⟨k, hk, htr, _⟩
    · rw [hx] at h; cases h
    · exact ⟨hd, s1, k, hk, by rw [ht, htr]; simp [hf]⟩
  · rw [ho] at h; cases h
  · rw [ho] at h; cases h
  · rw [ho] at h
    rcases restoreRecords_shape W fileName rd hd dry del ignor s2 with ⟨_, _, hx⟩ |
      ⟨k, hk, htr, _⟩
    · rw [hx] at h; cases h
    · exact ⟨hd, s2, k, hk, by rw [ht, htr]; simp [hf]⟩

/-- The shape of a restore run that ran to its end. -/
theorem restoreAction_done {σ : Type} (W : World σ) (args : List String)
    (dry flush del ignor stdin : Bool) (s : σ)
    (h : (restoreAction W args dry flush del ignor stdin s).outcome = Outcome.done) :
    ∃ opening fileName rd hd s0 keysC,
      (opening = [] ∨ ∃ name f, opening = [Event.openFile name f none]) ∧
      (restoreLoop W rd dry del ignor hd.Keys 0 s0).2.1 = some keysC ∧
      (restoreAction W args dry flush del ignor stdin s).trace =
        opening ++ Event.readHeader rd (some hd) ::
          ((if dry = false ∧ flush = true then [Event.cmd "FLUSHDB" (some none)] else []) ++
            Event.barStart (wrapInt W.intBits hd.Keys) ::
              ((restoreLoop W rd dry del ignor hd.Keys 0 s0).1 ++
                [Event.finishPrint (Report.restore fileName keysC)])) := by
  rcases restoreAction_cases W args dry flush del ignor stdin s with ⟨msg, hm⟩ |
    ⟨_, hb⟩ | ⟨name, f, e, _, ho⟩ | ⟨_, name, f, s1, ht, ho⟩
  · rw [hm] at h; simp [fail] at h
  · rw [hb] at h ⊢
    obtain ⟨hd, s0, k, hk, htr⟩ := restoreBody_done W _ _ dry flush del ignor s h
    exact ⟨[], "STDIN", Reader.stdin, hd, s0, k, Or.inl rfl, hk, by rw [htr]; rfl⟩
  · rw [ho] at h; cases h
  · rw [ho] at h
    obtain ⟨hd, s0, k, hk, htr⟩ := restoreBody_done W _ _ dry flush del ignor s1 h
    exact ⟨[Event.openFile name f none], name, Reader.file f, hd, s0, k,
      Or.inr ⟨name, f, rfl⟩, hk, by rw [ht, htr]; rfl⟩

/-- With dry-run no call of the restore body sends a command to the store. -/
theorem restoreBody_dry_quiet {σ : Type} (W : World σ) (fileName : String) (rd : Reader)
    (flush del ignor : Bool) (s : σ) :
    ∀ e ∈ (restoreBody W fileName rd true flush del ignor s).trace,
      e.isStoreWrite = false := by
  rcases restoreBody_shape W fileName rd true flush del ignor s with ⟨ht, _⟩ |
    ⟨hd, s1, _, ⟨hf, ht, ho⟩ | ⟨hf, _⟩ | ⟨hf, _⟩ | ⟨hf, _⟩⟩
  · rw [ht]; simp [Event.isStoreWrite]
  · rw [ht]
    have := restoreRecords_dry_quiet W fileName rd hd del ignor s1
    simpa [Event.isStoreWrite] using this
  · exact absurd hf.1 (by decide)
  · exact absurd hf.1 (by decide)
  · exact absurd hf.1 (by decide)

/-- The client commands of the restore body: none, or one FLUSHDB when flushdb is
set without dry-run. -/
theorem restoreBody_cmds {σ : Type} (W : World σ) (fileName : String) (rd : Reader)
    (dry flush del ignor : Bool) (s : σ) :
    (restoreBody W fileName rd dry flush del ignor s).trace.filterMap Event.cmdName = [] ∨
    ((dry = false ∧ flush = true) ∧
      (restoreBody W fileName rd dry flush del ignor s).trace.filterMap Event.cmdName =
        ["FLUSHDB"]) := by
  rcases restoreBody_shape W fileName rd dry flush del ignor s with ⟨ht, _⟩ |
    ⟨hd, s1, _, ⟨hf, ht, ho⟩ | ⟨hf, ht, ho⟩ | ⟨hf, e, ht, ho⟩ | ⟨hf, s2, ht, ho⟩⟩
  · left; rw [ht]; simp [Event.cmdName]
  · left; rw [ht]
    have := filterMap_none_of_forall Event.cmdName _
      (restoreRecords_no_cmd W fileName rd hd dry del ignor s1)
    simp [Event.cmdName, this]
  · right; rw [ht]; exact ⟨hf, by simp [Event.cmdName]⟩
  · right; rw [ht]; exact ⟨hf, by simp [Event.cmdName]⟩
  · right; rw [ht]
    have := filterMap_none_of_forall Event.cmdName _
      (restoreRecords_no_cmd W fileName rd hd dry del ignor s2)
    exact ⟨hf, by simp [Event.cmdName, this]⟩

/-- With flushdb set and without dry-run, a restore body that read its header sends
FLUSHDB right after it, and stops there when the reply carries an error. -/
theorem restoreBody_flush {σ : Type} (W : World σ) (fileName : String) (rd : Reader)
    (del ignor : Bool) (s : σ)
    (hread : ∃ rd1 hd, Event.readHeader rd1 (some hd) ∈
      (restoreBody W fileName rd false true del ignor s).trace) :
    ∃ hd res post,
      (restoreBody W fileName rd false true del ignor s).trace =
        Event.readHeader rd (some hd) :: Event.cmd "FLUSHDB" res :: post ∧
      (∀ e ∈ post, e.cmdName = none) ∧
      (∀ err, res = some (some err) → post = [] ∧
        (restoreBody W fileName rd false true del ignor s).outcome =
          Outcome.checkErr err "FLUSHDB") ∧
      (res = none → post = [] ∧
        (restoreBody W fileName rd false true del ignor s).outcome = Outcome.exited) := by
  rcases restoreBody_shape W fileName rd false true del ignor s with ⟨ht, _⟩ |
    ⟨hd, s1, _, ⟨hf, ht, ho⟩ | ⟨hf, ht, ho⟩ | ⟨hf, e, ht, ho⟩ | ⟨hf, s2, ht, ho⟩⟩
  · obtain ⟨rd1, hd, hm⟩ := hread
    rw [ht] at hm
    simp at hm
  · exact absurd ⟨rfl, rfl⟩ hf
  · exact ⟨hd, none, [], ht, by simp, by simp, fun _ => ⟨rfl, ho⟩⟩
  · refine ⟨hd, some (some e), [], ht, by simp, ?_, by simp⟩
    intro err herr
    simp only [Option.some.injEq] at herr
    subst herr
    exact ⟨rfl, ho⟩
  · exact ⟨hd, some none, _, ht, restoreRecords_no_cmd W fileName rd hd false del ignor s2,
      by simp, by simp⟩

/-! ## The restore command against what the input yields -/

theorem restoreLoop_dry_readAll {σ : Type} (W : World σ) (rd : Reader) (del ignor : Bool)
    (n : Nat) (k : Int) (s s1 : σ) (recs : List (Int × KeyDump))
    (h : readAll W rd n s = some (recs, s1)) :
    restoreLoop W rd true del ignor n k s = (scanned rd recs, some k, s1) ∧
      recs.length = n := by
  induction n generalizing s recs with
  | zero =>
    simp [readAll] at h
    obtain ⟨rfl, rfl⟩ := h
    simp [restoreLoop_zero, scanned]
  | succ n ih =>
    cases hr : W.readDump rd s with
    | none => simp [readAll, hr] at h
    | some p =>
      obtain ⟨⟨b, d⟩, s2⟩ := p
      cases hrest : readAll W rd n s2 with
      | none => simp [readAll, hr, hrest] at h
      | some q =>
        obtain ⟨rs, s3⟩ := q
        simp [readAll, hr, hrest] at h
        obtain ⟨rfl, rfl⟩ := h
        obtain ⟨hl, hlen⟩ := ih s2 rs hrest
        rw [restoreLoop_succ_dry _ _ _ _ _ _ _ _ _ _ hr, hl]
        simp [scanned, hlen]

theorem restoreLoop_dry_readAll_none {σ : Type} (W : World σ) (rd : Reader)
    (del ignor : Bool) (n : Nat) (k : Int) (s : σ) (h : readAll W rd n s = none) :
    (restoreLoop W rd true del ignor n k s).2.1 = none ∧
      Event.readDump rd none ∈ (restoreLoop W rd true del ignor n k s).1 := by
  induction n generalizing s with
  | zero => simp [readAll] at h
  | succ n ih =>
    cases hr : W.readDump rd s with
    | none => simp [restoreLoop_succ_exit _ _ _ _ _ _ _ _ hr]
    | some p =>
      obtain ⟨⟨b, d⟩, s2⟩ := p
      cases hrest : readAll W rd n s2 with
      | none =>
        obtain ⟨h1, h2⟩ := ih s2 hrest
        rw [restoreLoop_succ_dry _ _ _ _ _ _ _ _ _ _ hr]
        exact ⟨h1, List.mem_cons_of_mem _ (List.mem_cons_of_mem _ h2)⟩
      | some q =>
        obtain ⟨rs, s3⟩ := q
        simp [readAll, hr, hrest] at h

theorem restoreLoop_live_replayAll {σ : Type} (W : World σ) (rd : Reader)
    (del ignor : Bool) (n : Nat) (x : Int) (s s1 : σ) (recs : List (Int × KeyDump × Int))
    (h : replayAll W rd del ignor n s = some (recs, s1)) :
    restoreLoop W rd false del ignor n (wrapInt W.intBits x) s =
      (interleaved rd del ignor recs,
        some (wrapInt W.intBits (x + (recs.map fun r => r.2.2).sum)), s1) ∧
      recs.length = n := by
  induction n generalizing s x recs with
  | zero =>
    simp [replayAll] at h
    obtain ⟨rfl, rfl⟩ := h
    simp [restoreLoop_zero, interleaved]
  | succ n ih =>
    cases hr : W.readDump rd s with
    | none => simp [replayAll, hr] at h
    | some p =>
      obtain ⟨⟨b, d⟩, s2⟩ := p
      cases hk : W.restoreKey d del ignor s2 with
      | none => simp [replayAll, hr, hk] at h
      | some q =>
        obtain ⟨c, s3⟩ := q
        cases hrest : replayAll W rd del ignor n s3 with
        | none => simp [replayAll, hr, hk, hrest] at h
        | some q2 =>
          obtain ⟨rs, s4⟩ := q2
          simp [replayAll, hr, hk, hrest] at h
          obtain ⟨rfl, rfl⟩ := h
          have hadd : addInt W.intBits (wrapInt W.intBits x) c = wrapInt W.intBits (x + c) :=
            wrapInt_add_left _ _ _
          obtain ⟨hl, hlen⟩ := ih (x + c) s3 rs hrest
          rw [restoreLoop_succ_restored _ _ _ _ _ _ _ _ _ _ _ _ hr hk, hadd, hl]
          simp [interleaved, hlen, add_assoc]

/-- A restore invocation that passes its checks and opens its input is the call
that opens the input followed by the restore body. -/
theorem restoreAction_ready {σ : Type} (W : World σ) (args : List String)
    (dry flush del ignor stdin : Bool) (s s1 : σ) (fileName : String) (rd : Reader)
    (hval : ¬ (flush = true ∧ del = true))
    (hin : InputReady W args stdin s fileName rd s1) :
    (restoreAction W args dry flush del ignor stdin s).trace =
      openingCalls fileName rd ++ (restoreBody W fileName rd dry flush del ignor s1).trace ∧
    (restoreAction W args dry flush del ignor stdin s).outcome =
      (restoreBody W fileName rd dry flush del ignor s1).outcome ∧
    (restoreAction W args dry flush del ignor stdin s).state =
      (restoreBody W fileName rd dry flush del ignor s1).state := by
  cases rd with
  | stdin =>
    obtain ⟨rfl, rfl, rfl, rfl⟩ := hin
    simp [restoreAction, hval, openingCalls]
  | file h =>
    obtain ⟨rfl, rfl, hopen⟩ := hin
    simp [restoreAction, hval, hopen, checkErr, openingCalls]

theorem restoreRecords_of_loop {σ : Type} (W : World σ) (fileName : String) (rd : Reader)
    (hd : Header) (dry del ignor : Bool) (s s1 : σ) (tl : List Event) (k : Int)
    (h : restoreLoop W rd dry del ignor hd.Keys 0 s = (tl, some k, s1)) :
    restoreRecords W fileName rd hd dry del ignor s =
      ⟨Event.barStart (wrapInt W.intBits hd.Keys) ::
        (tl ++ [Event.finishPrint (Report.restore fileName k)]), Outcome.done, s1⟩ := by
  unfold restoreRecords
  rw [h]
  rfl

theorem restoreBody_dry_header {σ : Type} (W : World σ) (fileName : String) (rd : Reader)
    (flush del ignor : Bool) (s s1 : σ) (hd : Header)
    (hhd : W.readHeader rd s = some (hd, s1)) :
    restoreBody W fileName rd true flush del ignor s =
      Run.after [Event.readHeader rd (some hd)]
        (restoreRecords W fileName rd hd true del ignor s1) := by
  simp [restoreBody, hhd]

theorem restoreBody_live_header {σ : Type} (W : World σ) (fileName : String) (rd : Reader)
    (flush del ignor : Bool) (s s1 s2 : σ) (hd : Header)
    (hhd : W.readHeader rd s = some (hd, s1)) (hfl : Flushed W flush s1 s2) :
    restoreBody W fileName rd false flush del ignor s =
      Run.after (Event.readHeader rd (some hd) :: flushCalls flush)
        (restoreRecords W fileName rd hd false del ignor s2) := by
  cases flush with
  | false =>
    simp only [Flushed, Bool.false_eq_true, if_false] at hfl
    subst hfl
    simp [restoreBody, hhd, flushCalls]
  | true =>
    simp only [Flushed, if_true] at hfl
    simp [restoreBody, hhd, hfl, checkErr, flushCalls, Run.after]

/-- The calls before the record loop read and restore no record. -/
theorem opening_no_record (fileName : String) (rd : Reader) (hd : Header) (flush : Bool) :
    (openingCalls fileName rd ++ Event.readHeader rd (some hd) :: flushCalls flush).filterMap
        Event.readFrom = [] ∧
    (openingCalls fileName rd ++ Event.readHeader rd (some hd) :: flushCalls flush).filterMap
        Event.restored = [] := by
  cases rd <;> cases flush <;>
    simp [openingCalls, flushCalls, Event.readFrom, Event.restored]

/-- The whole run of a restore without dry-run whose helpers all return: the trace,
the outcome and the final state. -/
theorem restoreAction_live_run {σ : Type} (W : World σ) (args : List String)
    (flush del ignor stdin : Bool) (s s1 s2 s3 s4 : σ) (fileName : String) (rd : Reader)
    (hd : Header) (recs : List (Int × KeyDump × Int))
    (hval : ¬ (flush = true ∧ del = true))
    (hin : InputReady W args stdin s fileName rd s1)
    (hhd : W.readHeader rd s1 = some (hd, s2))
    (hfl : Flushed W flush s2 s3)
    (hrecs : replayAll W rd del ignor hd.Keys s3 = some (recs, s4)) :
    (restoreAction W args false flush del ignor stdin s).trace =
      (openingCalls fileName rd ++ Event.readHeader rd (some hd) :: flushCalls flush) ++
        Event.barStart (wrapInt W.intBits hd.Keys) ::
          (interleaved rd del ignor recs ++
            [Event.finishPrint (Report.restore fileName
              (wrapInt W.intBits (recs.map fun r => r.2.2).sum))]) ∧
    (restoreAction W args false flush del ignor stdin s).outcome = Outcome.done ∧
    (restoreAction W args false flush del ignor stdin s).state = s4 ∧
    recs.length = hd.Keys := by
  obtain ⟨ht, ho, hs⟩ := restoreAction_ready W args false flush del ignor stdin s s1
    fileName rd hval hin
  obtain ⟨hl, hlen⟩ := restoreLoop_live_replayAll W rd del ignor hd.Keys 0 s3 s4 recs hrecs
  rw [wrapInt_zero, zero_add] at hl
  have hb := restoreBody_live_header W fileName rd flush del ignor s1 s2 s3 hd hhd hfl
  rw [restoreRecords_of_loop W fileName rd hd false del ignor s3 s4 _ _ hl] at hb
  rw [hb] at ht ho hs
  exact ⟨by rw [ht]; simp, ho, hs, hlen⟩

/-- The whole run of a dry-run restore whose helpers all return. -/
theorem restoreAction_dry_run {σ : Type} (W : World σ) (args : List String)
    (flush del ignor stdin : Bool) (s s1 s2 s3 : σ) (fileName : String) (rd : Reader)
    (hd : Header) (recs : List (Int × KeyDump))
    (hval : ¬ (flush = true ∧ del = true))
    (hin : InputReady W args stdin s fileName rd s1)
    (hhd : W.readHeader rd s1 = some (hd, s2))
    (hrecs : readAll W rd hd.Keys s2 = some (recs, s3)) :
    (restoreAction W args true flush del ignor stdin s).trace =
      openingCalls fileName rd ++ Event.readHeader rd (some hd) ::
        Event.barStart (wrapInt W.intBits hd.Keys) ::
          (scanned rd recs ++ [Event.finishPrint (Report.restore fileName 0)]) ∧
    (restoreAction W args true flush del ignor stdin s).outcome = Outcome.done ∧
    (restoreAction W args true flush del ignor stdin s).state = s3 ∧
    recs.length = hd.Keys := by
  obtain ⟨ht, ho, hs⟩ := restoreAction_ready W args true flush del ignor stdin s s1
    fileName rd hval hin
  obtain ⟨hl, hlen⟩ := restoreLoop_dry_readAll W rd del ignor hd.Keys 0 s2 s3 recs hrecs
  have hb := restoreBody_dry_header W fileName rd flush del ignor s1 s2 hd hhd
  rw [restoreRecords_of_loop W fileName rd hd true del ignor s2 s3 _ _ hl] at hb
  rw [hb] at ht ho hs
  exact ⟨by rw [ht]; simp, ho, hs, hlen⟩

/-- A dry-run restore in which a `readDump` call ends the process. -/
theorem restoreAction_dry_exit {σ : Type} (W : World σ) (args : List String)
    (flush del ignor stdin : Bool) (s s1 s2 : σ) (fileName : String) (rd : Reader)
    (hd : Header)
    (hval : ¬ (flush = true ∧ del = true))
    (hin : InputReady W args stdin s fileName rd s1)
    (hhd : W.readHeader rd s1 = some (hd, s2))
    (hrecs : readAll W rd hd.Keys s2 = none) :
    (restoreAction W args true flush del ignor stdin s).outcome = Outcome.exited ∧
    Event.readDump rd none ∈ (restoreAction W args true flush del ignor stdin s).trace := by
  obtain ⟨ht, ho, _⟩ := restoreAction_ready W args true flush del ignor stdin s s1
    fileName rd hval hin
  obtain ⟨hl, hmem⟩ := restoreLoop_dry_readAll_none W rd del ignor hd.Keys 0 s2 hrecs
  have hb := restoreBody_dry_header W fileName rd flush del ignor s1 s2 hd hhd
  rcases restoreRecords_shape W fileName rd hd true del ignor s2 with ⟨_, htr, hor⟩ |
    ⟨k, hk, _, _⟩
  · rw [hb] at ht ho
    refine ⟨by rw [ho]; exact hor, ?_⟩
    rw [ht]
    simp only [Run.after_trace, htr]
    simp [hmem]
  · rw [hl] at hk; cases hk

/-! ## Captures that depend on the key only -/

/-- When the capture of every enumerated key yields `cap k` whatever the state, a
dump loop that runs to its end has captured every enumerated key, in order. -/
theorem dumpLoop_cap {σ : Type} (W : World σ) (file : Nat) (cap : String → Bool × KeyDump)
    (keys : List String) (v v1 : DumpVars) (s : σ)
    (hcap : ∀ k ∈ keys, ∀ u, ∃ u1, W.dumpKey k u = some (cap k, u1))
    (h : (dumpLoop W file keys v s).2.1 = some v1) :
    captures (dumpLoop W file keys v s).1 = keys.map (fun k => (k, cap k)) := by
  induction keys generalizing v s with
  | nil => simp [dumpLoop_nil, captures]
  | cons k ks ih =>
    obtain ⟨s1, hk⟩ := hcap k (List.mem_cons_self k ks) s
    have hcap2 : ∀ k ∈ ks, ∀ u, ∃ u1, W.dumpKey k u = some (cap k, u1) :=
      fun k2 hk2 => hcap k2 (List.mem_cons_of_mem k hk2)
    cases hc : cap k with
    | mk ok kd =>
      rw [hc] at hk
      cases ok with
      | false =>
        rw [dumpLoop_cons_failed _ _ _ _ _ _ _ _ hk] at h ⊢
        have := ih _ _ hcap2 h
        simp only [captures] at this ⊢
        simp [Event.capture, this, hc]
      | true =>
        cases hw : W.writeDump file kd s1 with
        | none => simp [dumpLoop_cons_write_exit _ _ _ _ _ _ _ _ hk hw] at h
        | some q =>
          obtain ⟨b, s2⟩ := q
          rw [dumpLoop_cons_written _ _ _ _ _ _ _ _ _ _ hk hw] at h ⊢
          have := ih _ _ hcap2 h
          simp only [captures] at this ⊢
          simp [Event.capture, this, hc]

/-- When the capture of every enumerated key yields `cap k` whatever the state, the
pipe loop captures the enumerated keys in order; it runs to its end, having
captured every key, unless a `genRespProto` call ends the process. -/
theorem pipeLoop_cap {σ : Type} (W : World σ) (cap : String → Bool × KeyDump)
    (keys : List String) (s : σ)
    (hcap : ∀ k ∈ keys, ∀ u, ∃ u1, W.dumpKey k u = some (cap k, u1)) :
    ((pipeLoop W keys s).2.1 = true →
      captures (pipeLoop W keys s).1 = keys.map (fun k => (k, cap k))) ∧
    ((pipeLoop W keys s).2.1 = false →
      ∃ key ttl payload,
        Event.genRespProto "RESTORE" key ttl payload none ∈ (pipeLoop W keys s).1) := by
  induction keys generalizing s with
  | nil => simp [pipeLoop, captures]
  | cons k ks ih =>
    obtain ⟨s1, hk⟩ := hcap k (List.mem_cons_self k ks) s
    have hcap2 : ∀ k ∈ ks, ∀ u, ∃ u1, W.dumpKey k u = some (cap k, u1) :=
      fun k2 hk2 => hcap k2 (List.mem_cons_of_mem k hk2)
    cases hc : cap k with
    | mk ok kd =>
      rw [hc] at hk
      cases ok with
      | false =>
        obtain ⟨h1, h2⟩ := ih s1 hcap2
        simp only [captures] at h1 ⊢
        constructor
        · intro hdone
          simp [pipeLoop, hk] at hdone
          simp [pipeLoop, hk, Event.capture, h1 hdone, hc]
        · intro hexit
          simp [pipeLoop, hk] at hexit
          obtain ⟨key, ttl, payload, hm⟩ := h2 hexit
          exact ⟨key, ttl, payload, by simp [pipeLoop, hk, hm]⟩
      | true =>
        cases hw : W.genRespProto "RESTORE" kd.Key kd.Pttl kd.Dump s1 with
        | none =>
          constructor
          · intro hdone
            simp [pipeLoop, hk, hw] at hdone
          · intro _
            exact ⟨kd.Key, kd.Pttl, kd.Dump, by simp [pipeLoop, hk, hw]⟩
        | some s2 =>
          obtain ⟨h1, h2⟩ := ih s2 hcap2
          simp only [captures] at h1 ⊢
          constructor
          · intro hdone
            simp [pipeLoop, hk, hw] at hdone
            simp [pipeLoop, hk, hw, Event.capture, h1 hdone, hc]
          · intro hexit
            simp [pipeLoop, hk, hw] at hexit
            obtain ⟨key, ttl, payload, hm⟩ := h2 hexit
            exact ⟨key, ttl, payload, by simp [pipeLoop, hk, hw, hm]⟩

/-! ## The dump command: properties -/

/-- C1: when the dump command completes, its trace ends with the seek to offset 0,
the final `writeHeader` call and the report; the count passed to that final
`writeHeader` is the number of `writeDump` calls made, which are exactly the
captures that succeeded; every enumerated key was captured once, in order; the
count is at most the number of enumerated keys, and the number of enumerated
keys minus the count is the reported expired counter (the number of failed
captures).  The number of keys fits the Go type `int`, as the length of every Go
slice does. -/
theorem dump_final_header_count {σ : Type} (W : World σ) (args : List String)
    (auto : Bool) (pat regex : String) (inv : Bool) (s s1 : σ) (keys : List String)
    (kc : Int)
    (hkeys : W.getKeys pat regex inv s = some ((keys, kc), s1))
    (hlen : (keys.length : Int) < 2 ^ (W.intBits - 1))
    (hdone : (dumpAction W args auto pat regex inv s).outcome = Outcome.done) :
    ∃ pre file b fileName keysC expired totalBytes,
      (dumpAction W args auto pat regex inv s).trace =
        pre ++ [Event.seek file 0 0 none, Event.writeHeader file keysC (some b),
          Event.finishPrint (Report.dump fileName keysC expired totalBytes)] ∧
      keysC = (writeDumpCalls (dumpAction W args auto pat regex inv s).trace).length ∧
      writeDumpCalls (dumpAction W args auto pat regex inv s).trace =
        succeeded (captures (dumpAction W args auto pat regex inv s).trace) ∧
      (captures (dumpAction W args auto pat regex inv s).trace).map (fun c => c.1) = keys ∧
      keysC ≤ keys.length ∧
      (keys.length : Int) - keysC = expired ∧
      expired = failedCount (captures (dumpAction W args auto pat regex inv s).trace) := by
  rcases dumpAction_cases W args auto pat regex inv s with ⟨msg, hf⟩ | ⟨fileName, hb⟩
  · rw [hf] at hdone
    simp [fail] at hdone
  · rw [hb] at hdone ⊢
    obtain ⟨keys2, kc2, s2, file, s3, b0, s4, loopT, v, s5, b, hg, _, _, hl, ht⟩ :=
      dumpBody_done W fileName pat regex inv s hdone
    rw [hkeys] at hg
    simp only [Option.some.injEq, Prod.mk.injEq] at hg
    obtain ⟨⟨rfl, rfl⟩, rfl⟩ := hg
    have hl1 : (dumpLoop W file keys ⟨b0, 0, 0⟩ s4).1 = loopT := by rw [hl]
    have hl2 : (dumpLoop W file keys ⟨b0, 0, 0⟩ s4).2.1 = some v := by rw [hl]
    have hw := dumpLoop_writes W file keys ⟨b0, 0, 0⟩ s4
    have hk := (dumpLoop_done_keys W file keys ⟨b0, 0, 0⟩ v s4 hl2).2
    have hc := dumpLoop_done_counts W file keys ⟨b0, 0, 0⟩ v s4 hl2 (le_refl _) (le_refl _)
      (by simpa using hlen)
    rw [hl1] at hw hk hc
    have hwT : writeDumpCalls (dumpBody W fileName pat regex inv s).trace =
        writeDumpCalls loopT := by
      rw [ht]; simp [writeDumpCalls, Event.written]
    have hcT : captures (dumpBody W fileName pat regex inv s).trace = captures loopT := by
      rw [ht]; simp [captures, Event.capture]
    refine ⟨[Event.getKeys pat regex inv (some (keys, kc)),
        Event.create fileName file none, Event.barStart kc,
        Event.writeHeader file kc (some b0)] ++ loopT,
      file, b, fileName, v.keysC, v.expired, v.totalBytes, ?_, ?_, ?_, ?_, ?_, ?_, ?_⟩
    · rw [ht]; simp
    · rw [hwT, hw]; simpa using hc.1
    · rw [hwT, hcT, hw]
    · rw [hcT, hk]
    · have := hc.1; have := hc.2.2; simp at *; omega
    · have := hc.1; have := hc.2.1; have := hc.2.2; simp at *; omega
    · rw [hcT]; simpa using hc.2.1

/-- Witness for C1: the example dump of three keys, one of them expired. -/
theorem dump_final_header_count_witness :
    (demoWorld.getKeys "*" "" false demoState = some ((["a", "b", "c"], 3), demoState) ∧
      ((["a", "b", "c"].length : Nat) : Int) < 2 ^ (demoWorld.intBits - 1) ∧
      (dumpAction demoWorld ["out.rdmp"] false "*" "" false demoState).outcome =
        Outcome.done) ∧
    ∃ pre file b fileName keysC expired totalBytes,
      (dumpAction demoWorld ["out.rdmp"] false "*" "" false demoState).trace =
        pre ++ [Event.seek file 0 0 none, Event.writeHeader file keysC (some b),
          Event.finishPrint (Report.dump fileName keysC expired totalBytes)] ∧
      keysC = (writeDumpCalls
        (dumpAction demoWorld ["out.rdmp"] false "*" "" false demoState).trace).length ∧
      writeDumpCalls (dumpAction demoWorld ["out.rdmp"] false "*" "" false demoState).trace =
        succeeded (captures
          (dumpAction demoWorld ["out.rdmp"] false "*" "" false demoState).trace) ∧
      (captures (dumpAction demoWorld ["out.rdmp"] false "*" "" false demoState).trace).map
        (fun c => c.1) = ["a", "b", "c"] ∧
      keysC ≤ (["a", "b", "c"].length : Nat) ∧
      ((["a", "b", "c"].length : Nat) : Int) - keysC = expired ∧
      expired = failedCount (captures
        (dumpAction demoWorld ["out.rdmp"] false "*" "" false demoState).trace) :=
  ⟨⟨rfl, by decide, by decide⟩,
    dump_final_header_count demoWorld ["out.rdmp"] false "*" "" false demoState demoState
      ["a", "b", "c"] 3 rfl (by decide) (by decide)⟩

/-- C4: in the dump loop the records handed to `writeDump` are exactly the captures
that succeeded, in call order; `dumpKey` is called on the enumerated keys in
enumeration order; the loop stops early only when a helper ends the process,
never because a capture failed; when it runs to its end every key was captured
once, in order, and (the counters fitting the Go type `int`) the expired counter
grew by the number of failed captures and the key counter by the number of
successful ones; a failed capture of the first key makes no `writeDump` call,
adds one to the expired counter and continues with the other keys. -/
theorem dumpLoop_skips_failed_captures {σ : Type} (W : World σ) (file : Nat)
    (keys : List String) (v : DumpVars) (s : σ) :
    writeDumpCalls (dumpLoop W file keys v s).1 =
      succeeded (captures (dumpLoop W file keys v s).1) ∧
    (dumpLoop W file keys v s).1.filterMap Event.captureKey <+: keys ∧
    ((dumpLoop W file keys v s).2.1 = none ↔
      ∃ e ∈ (dumpLoop W file keys v s).1, e.isExit = true) ∧
    (∀ v1, (dumpLoop W file keys v s).2.1 = some v1 →
      (dumpLoop W file keys v s).1.filterMap Event.captureKey = keys ∧
      (captures (dumpLoop W file keys v s).1).map (fun c => c.1) = keys) ∧
    (∀ v1, (dumpLoop W file keys v s).2.1 = some v1 → 0 ≤ v.keysC → 0 ≤ v.expired →
      v.keysC + v.expired + keys.length < 2 ^ (W.intBits - 1) →
      v1.expired = v.expired + failedCount (captures (dumpLoop W file keys v s).1) ∧
      v1.keysC = v.keysC + (succeeded (captures (dumpLoop W file keys v s).1)).length ∧
      (succeeded (captures (dumpLoop W file keys v s).1)).length +
        failedCount (captures (dumpLoop W file keys v s).1) = keys.length) ∧
    (∀ k ks kd s1, keys = k :: ks → W.dumpKey k s = some ((false, kd), s1) →
      dumpLoop W file keys v s =
        (Event.barIncrement :: Event.dumpKey k (some (false, kd)) ::
          (dumpLoop W file ks { v with expired := addInt W.intBits v.expired 1 } s1).1,
         (dumpLoop W file ks { v with expired := addInt W.intBits v.expired 1 } s1).2)) := by
  refine ⟨dumpLoop_writes W file keys v s, dumpLoop_called_keys W file keys v s,
    dumpLoop_exit W file keys v s, ?_, ?_, ?_⟩
  · intro v1 h
    exact dumpLoop_done_keys W file keys v v1 s h
  · intro v1 h hk he hr
    have := dumpLoop_done_counts W file keys v v1 s h hk he hr
    exact ⟨this.2.1, this.1, this.2.2⟩
  · intro k ks kd s1 hkeys hd
    subst hkeys
    exact dumpLoop_cons_failed W file k ks v s s1 kd hd

/-- Witness for C4: the example loop over three keys, the second one expired. -/
theorem dumpLoop_skips_failed_captures_witness :
    writeDumpCalls (dumpLoop demoWorld 3 ["a", "b", "c"] ⟨8, 0, 0⟩ demoState).1 =
      [⟨"a", -1, [1, 2]⟩, ⟨"c", -1, [1, 2]⟩] ∧
    (dumpLoop demoWorld 3 ["a", "b", "c"] ⟨8, 0, 0⟩ demoState).2.1 = some ⟨28, 2, 1⟩ :=
  ⟨((dumpLoop_skips_failed_captures demoWorld 3 ["a", "b", "c"] ⟨8, 0, 0⟩ demoState).1).trans
    (by decide), by decide⟩

/-- C10: the dump command reaches key enumeration and file creation exactly when
one file name is given without auto (the file created is the given name) or no
file name is given with auto (the file created is the generated
redis<timestamp>.rdmp name); in every other case it calls `fail` and makes no
other call: the state of the world is unchanged. -/
theorem dump_argument_switch {σ : Type} (W : World σ) (args : List String) (auto : Bool)
    (pat regex : String) (inv : Bool) (s : σ) :
    (∀ name, args = [name] → auto = false →
      (dumpAction W args auto pat regex inv s).trace.head? =
        some (Event.getKeys pat regex inv ((W.getKeys pat regex inv s).map Prod.fst)) ∧
      ∀ keys kc s1, W.getKeys pat regex inv s = some ((keys, kc), s1) →
        (dumpAction W args auto pat regex inv s).trace[1]? =
          some (Event.create name (W.create name s1).1.1 (W.create name s1).1.2)) ∧
    (args = [] → auto = true →
      (dumpAction W args auto pat regex inv s).trace.head? =
        some (Event.getKeys pat regex inv ((W.getKeys pat regex inv s).map Prod.fst)) ∧
      ∀ keys kc s1, W.getKeys pat regex inv s = some ((keys, kc), s1) →
        (dumpAction W args auto pat regex inv s).trace[1]? =
          some (Event.create ("redis" ++ W.clock s ++ ".rdmp")
            (W.create ("redis" ++ W.clock s ++ ".rdmp") s1).1.1
            (W.create ("redis" ++ W.clock s ++ ".rdmp") s1).1.2)) ∧
    (¬ ((args.length = 1 ∧ auto = false) ∨ (args.length = 0 ∧ auto = true)) →
      ∃ msg, (dumpAction W args auto pat regex inv s).trace = [Event.fail msg] ∧
        (dumpAction W args auto pat regex inv s).outcome = Outcome.failed msg ∧
        (dumpAction W args auto pat regex inv s).state = s) ∧
    ((∃ e ∈ (dumpAction W args auto pat regex inv s).trace, e.isEffect = true) ↔
      ((args.length = 1 ∧ auto = false) ∨ (args.length = 0 ∧ auto = true))) := by
  have hone : ∀ name, args = [name] → auto = false →
      dumpAction W args auto pat regex inv s = dumpBody W name pat regex inv s := by
    intro name ha hau
    subst ha hau
    simp [dumpAction]
  have hauto : args = [] → auto = true →
      dumpAction W args auto pat regex inv s =
        dumpBody W ("redis" ++ W.clock s ++ ".rdmp") pat regex inv s := by
    intro ha hau
    subst ha hau
    simp [dumpAction]
  have hbad : ¬ ((args.length = 1 ∧ auto = false) ∨ (args.length = 0 ∧ auto = true)) →
      ∃ msg, dumpAction W args auto pat regex inv s = fail msg s := by
    intro hn
    unfold dumpAction
    split_ifs with h1 h2 h3 h4 h5
    · exact ⟨_, rfl⟩
    · exact ⟨_, rfl⟩
    · exact absurd (Or.inl h3) hn
    · exfalso
      apply hn
      right
      refine ⟨?_, h4⟩
      by_contra hl
      exact h2 ⟨Nat.pos_of_ne_zero hl, h4⟩
    · exact ⟨_, rfl⟩
    · exfalso
      have hf : auto = false := by
        cases auto
        · rfl
        · exact absurd rfl h4
      have h0 : args.length ≠ 0 := fun h => h1 ⟨h, hf⟩
      have h1 : args.length ≠ 1 := fun h => h3 ⟨h, hf⟩
      omega
  refine ⟨?_, ?_, ?_, ?_⟩
  · intro name ha hau
    rw [hone name ha hau]
    refine ⟨dumpBody_head W name pat regex inv s, ?_⟩
    intro keys kc s1 hg
    exact dumpBody_create W name pat regex inv s s1 _ keys kc _ _ hg rfl
  · intro ha hau
    rw [hauto ha hau]
    refine ⟨dumpBody_head W _ pat regex inv s, ?_⟩
    intro keys kc s1 hg
    exact dumpBody_create W _ pat regex inv s s1 _ keys kc _ _ hg rfl
  · intro hn
    obtain ⟨msg, hm⟩ := hbad hn
    exact ⟨msg, by rw [hm]; rfl, by rw [hm]; rfl, by rw [hm]; rfl⟩
  · constructor
    · intro he
      by_contra hn
      obtain ⟨msg, hm⟩ := hbad hn
      rw [hm] at he
      simp [fail, Event.isEffect] at he
    · rintro (⟨hl, hau⟩ | ⟨hl, hau⟩)
      · obtain ⟨name, rfl⟩ := List.length_eq_one.mp hl
        rw [hone name rfl hau]
        exact dumpBody_effect W name pat regex inv s
      · rw [hauto (List.length_eq_zero.mp hl) hau]
        exact dumpBody_effect W _ pat regex inv s

/-- Witness for C10: a file name together with auto is refused before any call. -/
theorem dump_argument_switch_witness :
    ∃ msg, (dumpAction demoWorld ["out.rdmp"] true "*" "" false demoState).trace =
        [Event.fail msg] ∧
      (dumpAction demoWorld ["out.rdmp"] true "*" "" false demoState).outcome =
        Outcome.failed msg ∧
      (dumpAction demoWorld ["out.rdmp"] true "*" "" false demoState).state = demoState :=
  (dump_argument_switch demoWorld ["out.rdmp"] true "*" "" false demoState).2.2.1
    (by decide)

/-! ## The pipe command: properties -/

/-- C7: the dump and the pipe command enumerate the same key list `keys`, and the
capture of every enumerated key `k` yields the same outcome `cap k` in both.
Then pipe makes no file call; it runs to its end unless a `genRespProto` call
ends the process, never stopping on a failed capture; when it runs to its end
it has captured every enumerated key, in enumeration order, and has handed to
`genRespProto`, each as a RESTORE command with the key, the TTL and the
payload, exactly the successful captures, in that order; a dump that runs to
its end has captured every enumerated key and handed to `writeDump` exactly
the same records in the same order. -/
theorem pipe_serializes_same_captures {σ : Type} (W : World σ)
    (cap : String → Bool × KeyDump) (keys : List String)
    (args : List String) (auto : Bool) (pat regex : String) (inv : Bool) (s s1 : σ)
    (kc : Int) (pat2 regex2 : String) (inv2 : Bool) (t t1 : σ) (kc2 : Int)
    (hcap : ∀ k ∈ keys, ∀ u, ∃ u1, W.dumpKey k u = some (cap k, u1))
    (hgd : W.getKeys pat regex inv s = some ((keys, kc), s1))
    (hgp : W.getKeys pat2 regex2 inv2 t = some ((keys, kc2), t1)) :
    (∀ e ∈ (pipeAction W pat2 regex2 inv2 t).trace, e.isFileCall = false) ∧
    ((pipeAction W pat2 regex2 inv2 t).outcome = Outcome.done ∨
      ((pipeAction W pat2 regex2 inv2 t).outcome = Outcome.exited ∧
        ∃ key ttl payload, Event.genRespProto "RESTORE" key ttl payload none ∈
          (pipeAction W pat2 regex2 inv2 t).trace)) ∧
    ((pipeAction W pat2 regex2 inv2 t).outcome = Outcome.done →
      captures (pipeAction W pat2 regex2 inv2 t).trace = keys.map (fun k => (k, cap k)) ∧
      respCalls (pipeAction W pat2 regex2 inv2 t).trace =
        (succeeded (keys.map fun k => (k, cap k))).map (fun kd => ("RESTORE", kd))) ∧
    ((dumpAction W args auto pat regex inv s).outcome = Outcome.done →
      captures (dumpAction W args auto pat regex inv s).trace =
        keys.map (fun k => (k, cap k)) ∧
      writeDumpCalls (dumpAction W args auto pat regex inv s).trace =
        succeeded (keys.map fun k => (k, cap k))) ∧
    ((pipeAction W pat2 regex2 inv2 t).outcome = Outcome.done →
      (dumpAction W args auto pat regex inv s).outcome = Outcome.done →
      respCalls (pipeAction W pat2 regex2 inv2 t).trace =
        (writeDumpCalls (dumpAction W args auto pat regex inv s).trace).map
          (fun kd => ("RESTORE", kd))) := by
  -- the pipe run
  obtain ⟨htP, hoP⟩ : (pipeAction W pat2 regex2 inv2 t).trace =
        Event.getKeys pat2 regex2 inv2 (some (keys, kc2)) :: (pipeLoop W keys t1).1 ∧
      (pipeAction W pat2 regex2 inv2 t).outcome =
        (if (pipeLoop W keys t1).2.1 = true then Outcome.done else Outcome.exited) := by
    rcases pipeAction_shape W pat2 regex2 inv2 t with ⟨ht, _⟩ | ⟨keys2, kc3, t2, hg, ht, ho⟩
    · simp [pipeAction, hgp] at ht
    · rw [hgp] at hg
      simp only [Option.some.injEq, Prod.mk.injEq] at hg
      obtain ⟨⟨rfl, rfl⟩, rfl⟩ := hg
      exact ⟨ht, ho⟩
  obtain ⟨hcapP, hexitP⟩ := pipeLoop_cap W cap keys t1 hcap
  have hpipe : (pipeAction W pat2 regex2 inv2 t).outcome = Outcome.done →
      captures (pipeAction W pat2 regex2 inv2 t).trace = keys.map (fun k => (k, cap k)) ∧
      respCalls (pipeAction W pat2 regex2 inv2 t).trace =
        (succeeded (keys.map fun k => (k, cap k))).map (fun kd => ("RESTORE", kd)) := by
    intro hdone
    have hl : (pipeLoop W keys t1).2.1 = true := by
      cases hb : (pipeLoop W keys t1).2.1 with
      | true => rfl
      | false => rw [hoP, hb] at hdone; simp at hdone
    have hc : captures (pipeAction W pat2 regex2 inv2 t).trace =
        keys.map (fun k => (k, cap k)) := by
      rw [htP, ← hcapP hl]
      simp [captures, Event.capture]
    refine ⟨hc, ?_⟩
    rw [← hc, htP]
    have := pipeLoop_resp W keys t1
    simp only [respCalls, captures, succeeded] at this ⊢
    simp [Event.resp, Event.capture, this]
  -- the dump run
  have hdump : (dumpAction W args auto pat regex inv s).outcome = Outcome.done →
      captures (dumpAction W args auto pat regex inv s).trace =
        keys.map (fun k => (k, cap k)) ∧
      writeDumpCalls (dumpAction W args auto pat regex inv s).trace =
        succeeded (keys.map fun k => (k, cap k)) := by
    intro hdone
    rcases dumpAction_cases W args auto pat regex inv s with ⟨msg, hf⟩ | ⟨fileName, hb⟩
    · rw [hf] at hdone
      simp [fail] at hdone
    · have hw := dumpAction_writes W args auto pat regex inv s
      rw [hb] at hdone hw ⊢
      obtain ⟨keys2, kc3, s2, file, s3, b0, s4, loopT, v, s5, b, hg, _, _, hl, ht⟩ :=
        dumpBody_done W fileName pat regex inv s hdone
      rw [hgd] at hg
      simp only [Option.some.injEq, Prod.mk.injEq] at hg
      obtain ⟨⟨rfl, rfl⟩, rfl⟩ := hg
      have hl2 : (dumpLoop W file keys ⟨b0, 0, 0⟩ s4).2.1 = some v := by rw [hl]
      have hc := dumpLoop_cap W file cap keys ⟨b0, 0, 0⟩ v s4 hcap hl2
      rw [hl] at hc
      have hcT : captures (dumpBody W fileName pat regex inv s).trace =
          keys.map (fun k => (k, cap k)) := by
        rw [ht, ← hc]; simp [captures, Event.capture]
      exact ⟨hcT, by rw [hw, hcT]⟩
  refine ⟨?_, ?_, hpipe, hdump, ?_⟩
  · rw [htP]
    have := pipeLoop_no_file W keys t1
    simpa [Event.isFileCall] using this
  · cases hb : (pipeLoop W keys t1).2.1 with
    | true => left; rw [hoP, hb]; rfl
    | false =>
      right
      refine ⟨by rw [hoP, hb]; rfl, ?_⟩
      obtain ⟨key, ttl, payload, hm⟩ := hexitP hb
      exact ⟨key, ttl, payload, by rw [htP]; exact List.mem_cons_of_mem _ hm⟩
  · intro hp hd
    rw [(hpipe hp).2, (hdump hd).2]

/-- Witness for C7: the example dump and pipe of four keys, the second one
expired. -/
theorem pipe_serializes_same_captures_witness :
    respCalls (pipeAction steadyWorld "*" "" false demoState).trace =
      (writeDumpCalls (dumpAction steadyWorld ["out.rdmp"] false "*" "" false
        demoState).trace).map (fun kd => ("RESTORE", kd)) ∧
    writeDumpCalls (dumpAction steadyWorld ["out.rdmp"] false "*" "" false
      demoState).trace =
      [⟨"a", -1, [1, 2]⟩, ⟨"c", -1, [1, 2]⟩, ⟨"d", -1, [1, 2]⟩] :=
  ⟨(pipe_serializes_same_captures steadyWorld steadyCapture ["a", "b", "c", "d"]
      ["out.rdmp"] false "*" "" false demoState demoState 4 "*" "" false demoState
      demoState 4 (fun _ _ u => ⟨u, rfl⟩) rfl rfl).2.2.2.2 (by decide) (by decide),
    by decide⟩

/-! ## The restore command: properties -/

/-- C3: a restore invocation with both flushdb and delete set calls `fail` and makes
no other call, whatever the arguments and the other flags: the input is not
opened, no header is read, no store command is sent, the state of the world is
unchanged. -/
theorem restore_flush_and_delete_rejected {σ : Type} (W : World σ) (args : List String)
    (dry ignor stdin : Bool) (s : σ) :
    (restoreAction W args dry true true ignor stdin s).trace =
      [Event.fail "flush or delete?"] ∧
    (restoreAction W args dry true true ignor stdin s).outcome =
      Outcome.failed "flush or delete?" ∧
    (restoreAction W args dry true true ignor stdin s).state = s ∧
    ∀ e ∈ (restoreAction W args dry true true ignor stdin s).trace, e.isEffect = false := by
  have h : restoreAction W args dry true true ignor stdin s = fail "flush or delete?" s := by
    simp [restoreAction]
  rw [h]
  simp [fail, Event.isEffect]

/-- C2: a restore run with dry-run set sends no command to the store (no FLUSHDB,
no `restoreKey` call), whatever the arguments and the other flags.  When the
flags pass validation, the input is ready and `readHeader` returns a header of
N records: if the input yields N records, the run is exactly the opening of the
input, the header read, and N `readDump` calls on that input, one per record
the input yields, and it runs to its end; the only other possibility is that a
`readDump` call ends the process. -/
theorem restore_dry_run_neutral {σ : Type} (W : World σ) (args : List String)
    (flush del ignor stdin : Bool) (s : σ) :
    (∀ e ∈ (restoreAction W args true flush del ignor stdin s).trace,
      e.isStoreWrite = false) ∧
    (∀ fileName rd s1 hd s2, ¬ (flush = true ∧ del = true) →
      InputReady W args stdin s fileName rd s1 →
      W.readHeader rd s1 = some (hd, s2) →
      (∀ recs s3, readAll W rd hd.Keys s2 = some (recs, s3) →
        (restoreAction W args true flush del ignor stdin s).trace =
          openingCalls fileName rd ++ Event.readHeader rd (some hd) ::
            Event.barStart (wrapInt W.intBits hd.Keys) ::
              (scanned rd recs ++ [Event.finishPrint (Report.restore fileName 0)]) ∧
        (restoreAction W args true flush del ignor stdin s).outcome = Outcome.done ∧
        (restoreAction W args true flush del ignor stdin s).state = s3 ∧
        recs.length = hd.Keys ∧
        readDumpCalls (restoreAction W args true flush del ignor stdin s).trace =
          List.replicate hd.Keys rd) ∧
      (readAll W rd hd.Keys s2 = none →
        (restoreAction W args true flush del ignor stdin s).outcome = Outcome.exited ∧
        Event.readDump rd none ∈
          (restoreAction W args true flush del ignor stdin s).trace)) := by
  constructor
  · rcases restoreAction_cases W args true flush del ignor stdin s with ⟨msg, hm⟩ |
      ⟨_, hb⟩ | ⟨name, f, e, ht, _⟩ | ⟨_, name, f, s1, ht, _⟩
    · rw [hm]; simp [fail, Event.isStoreWrite]
    · rw [hb]; exact restoreBody_dry_quiet W _ _ flush del ignor s
    · rw [ht]; simp [Event.isStoreWrite]
    · rw [ht]
      have := restoreBody_dry_quiet W name (Reader.file f) flush del ignor s1
      simpa [Event.isStoreWrite] using this
  · intro fileName rd s1 hd s2 hval hin hhd
    constructor
    · intro recs s3 hrecs
      obtain ⟨ht, ho, hs, hlen⟩ := restoreAction_dry_run W args flush del ignor stdin s s1 s2
        s3 fileName rd hd recs hval hin hhd hrecs
      refine ⟨ht, ho, hs, hlen, ?_⟩
      rw [ht]
      have hsc := (scanned_reads rd recs).1
      simp only [readDumpCalls] at hsc ⊢
      cases rd <;> simp [openingCalls, Event.readFrom, hsc, hlen]
    · intro hrecs
      exact restoreAction_dry_exit W args flush del ignor stdin s s1 s2 fileName rd hd
        hval hin hhd hrecs

/-- Witness for C2: the example dry-run over a file of two records, with flushdb
set. -/
theorem restore_dry_run_neutral_witness :
    (restoreAction demoWorld ["in.rdmp"] true true false true false demoState).trace =
      openingCalls "in.rdmp" (Reader.file 4) ++
        Event.readHeader (Reader.file 4) (some ⟨2⟩) ::
          Event.barStart (wrapInt demoWorld.intBits ((2 : Nat) : Int)) ::
            (scanned (Reader.file 4) [(1, ⟨"a", -1, [1, 2]⟩), (1, ⟨"b", 5000, [3]⟩)] ++
              [Event.finishPrint (Report.restore "in.rdmp" 0)]) ∧
    (restoreAction demoWorld ["in.rdmp"] true true false true false demoState).outcome =
      Outcome.done ∧
    (restoreAction demoWorld ["in.rdmp"] true true false true false demoState).state =
      ⟨["b"], [], []⟩ ∧
    [(1, (⟨"a", -1, [1, 2]⟩ : KeyDump)), (1, ⟨"b", 5000, [3]⟩)].length = 2 ∧
    readDumpCalls
      (restoreAction demoWorld ["in.rdmp"] true true false true false demoState).trace =
      List.replicate 2 (Reader.file 4) :=
  ((restore_dry_run_neutral demoWorld ["in.rdmp"] true false true false demoState).2
    "in.rdmp" (Reader.file 4) demoState ⟨2⟩ demoState (by decide) ⟨rfl, rfl, rfl⟩ rfl).1
    [(1, ⟨"a", -1, [1, 2]⟩), (1, ⟨"b", 5000, [3]⟩)] ⟨["b"], [], []⟩ rfl

/-- C5: a restore run without dry-run whose flags pass validation, whose input is
ready, whose header announces N records, whose FLUSHDB (if asked for) is
accepted and whose input yields N records that `restoreKey` accepts, runs to
its end and is exactly: the opening of the input, the header read, the optional
FLUSHDB, then for each record of the input in file order one `readDump` call
followed by one `restoreKey` call on the record just read with the delete and
ignore flags of the command line, then the report.  So `readDump` and
`restoreKey` are each called N times, alternating. -/
theorem restore_reads_and_restores_alternate {σ : Type} (W : World σ) (args : List String)
    (flush del ignor stdin : Bool) (s s1 s2 s3 s4 : σ) (fileName : String) (rd : Reader)
    (hd : Header) (recs : List (Int × KeyDump × Int))
    (hval : ¬ (flush = true ∧ del = true))
    (hin : InputReady W args stdin s fileName rd s1)
    (hhd : W.readHeader rd s1 = some (hd, s2))
    (hfl : Flushed W flush s2 s3)
    (hrecs : replayAll W rd del ignor hd.Keys s3 = some (recs, s4)) :
    (restoreAction W args false flush del ignor stdin s).trace =
      (openingCalls fileName rd ++ Event.readHeader rd (some hd) :: flushCalls flush) ++
        Event.barStart (wrapInt W.intBits hd.Keys) ::
          (interleaved rd del ignor recs ++
            [Event.finishPrint (Report.restore fileName
              (wrapInt W.intBits (recs.map fun r => r.2.2).sum))]) ∧
    (restoreAction W args false flush del ignor stdin s).outcome = Outcome.done ∧
    (restoreAction W args false flush del ignor stdin s).state = s4 ∧
    recs.length = hd.Keys ∧
    readDumpCalls (restoreAction W args false flush del ignor stdin s).trace =
      List.replicate hd.Keys rd ∧
    (restoreResults (restoreAction W args false flush del ignor stdin s).trace).length =
      hd.Keys := by
  obtain ⟨ht, ho, hs, hlen⟩ := restoreAction_live_run W args flush del ignor stdin s s1 s2
    s3 s4 fileName rd hd recs hval hin hhd hfl hrecs
  obtain ⟨hp1, hp2⟩ := opening_no_record fileName rd hd flush
  obtain ⟨hr1, hr2⟩ := interleaved_reads rd del ignor recs
  simp only [readDumpCalls, restoreResults] at hr1 hr2 ⊢
  refine ⟨ht, ho, hs, hlen, ?_, ?_⟩
  · rw [ht, List.filterMap_append, hp1]
    simp [Event.readFrom, hr1, hlen]
  · rw [ht, List.filterMap_append, hp2]
    simp [Event.restored, hr2, hlen]

/-- Witness for C5: the example restore, with flushdb, of a file of two records. -/
theorem restore_reads_and_restores_alternate_witness :
    (restoreAction demoWorld ["in.rdmp"] false true false true false demoState).trace =
      (openingCalls "in.rdmp" (Reader.file 4) ++
          Event.readHeader (Reader.file 4) (some ⟨2⟩) :: flushCalls true) ++
        Event.barStart (wrapInt demoWorld.intBits ((2 : Nat) : Int)) ::
          (interleaved (Reader.file 4) false true
              [(1, ⟨"a", -1, [1, 2]⟩, 1), (1, ⟨"b", 5000, [3]⟩, 0)] ++
            [Event.finishPrint (Report.restore "in.rdmp"
              (wrapInt demoWorld.intBits
                (([(1, ⟨"a", -1, [1, 2]⟩, 1), (1, ⟨"b", 5000, [3]⟩, 0)] :
                  List (Int × KeyDump × Int)).map fun r => r.2.2).sum))]) ∧
    (restoreAction demoWorld ["in.rdmp"] false true false true false demoState).outcome =
      Outcome.done ∧
    (restoreAction demoWorld ["in.rdmp"] false true false true false demoState).state =
      ⟨["b"], [], []⟩ ∧
    ([(1, ⟨"a", -1, [1, 2]⟩, 1), (1, ⟨"b", 5000, [3]⟩, 0)] :
      List (Int × KeyDump × Int)).length = 2 ∧
    readDumpCalls
      (restoreAction demoWorld ["in.rdmp"] false true false true false demoState).trace =
      List.replicate 2 (Reader.file 4) ∧
    (restoreResults
      (restoreAction demoWorld ["in.rdmp"] false true false true false
        demoState).trace).length = 2 :=
  restore_reads_and_restores_alternate demoWorld ["in.rdmp"] true false true false
    demoState demoState demoState demoState ⟨["b"], [], []⟩ "in.rdmp" (Reader.file 4) ⟨2⟩
    [(1, ⟨"a", -1, [1, 2]⟩, 1), (1, ⟨"b", 5000, [3]⟩, 0)]
    (by decide) ⟨rfl, rfl, rfl⟩ rfl (by simp [Flushed, demoWorld]) rfl

/-- C6: a restore run sends at most one client command, and only FLUSHDB; it sends
none unless flushdb is set and dry-run is not; with flushdb set and dry-run not
set, a run that read its header sends FLUSHDB right after the header, after
calls that read or restore no record, and when the reply carries an error (or
the client ends the process) nothing follows: the run ends with the `checkErr`
failure for FLUSHDB before any record is read or restored. -/
theorem restore_flushdb_once {σ : Type} (W : World σ) (args : List String)
    (dry flush del ignor stdin : Bool) (s : σ) :
    ((restoreAction W args dry flush del ignor stdin s).trace.filterMap Event.cmdName = [] ∨
      (restoreAction W args dry flush del ignor stdin s).trace.filterMap Event.cmdName =
        ["FLUSHDB"]) ∧
    (¬ (flush = true ∧ dry = false) →
      (restoreAction W args dry flush del ignor stdin s).trace.filterMap Event.cmdName = []) ∧
    (flush = true → dry = false →
      (∃ rd hd, Event.readHeader rd (some hd) ∈
        (restoreAction W args dry flush del ignor stdin s).trace) →
      ∃ pre rd hd res post,
        (restoreAction W args dry flush del ignor stdin s).trace =
          pre ++ Event.readHeader rd (some hd) :: Event.cmd "FLUSHDB" res :: post ∧
        (∀ e ∈ pre, e.isRecordCall = false ∧ e.cmdName = none) ∧
        (∀ e ∈ post, e.cmdName = none) ∧
        (∀ err, res = some (some err) → post = [] ∧
          (restoreAction W args dry flush del ignor stdin s).outcome =
            Outcome.checkErr err "FLUSHDB") ∧
        (res = none → post = [] ∧
          (restoreAction W args dry flush del ignor stdin s).outcome = Outcome.exited)) := by
  have hcmds : (restoreAction W args dry flush del ignor stdin s).trace.filterMap
        Event.cmdName = [] ∨
      ((dry = false ∧ flush = true) ∧
        (restoreAction W args dry flush del ignor stdin s).trace.filterMap Event.cmdName =
          ["FLUSHDB"]) := by
    rcases restoreAction_cases W args dry flush del ignor stdin s with ⟨msg, hm⟩ |
      ⟨_, hb⟩ | ⟨name, f, e, ht, _⟩ | ⟨_, name, f, s1, ht, _⟩
    · left; rw [hm]; simp [fail, Event.cmdName]
    · rw [hb]; exact restoreBody_cmds W _ _ dry flush del ignor s
    · left; rw [ht]; simp [Event.cmdName]
    · rw [ht]
      rcases restoreBody_cmds W name (Reader.file f) dry flush del ignor s1 with h | ⟨hf, h⟩
      · left; simp [Event.cmdName, h]
      · right; exact ⟨hf, by simp [Event.cmdName, h]⟩
  refine ⟨?_, ?_, ?_⟩
  · rcases hcmds with h | ⟨_, h⟩
    · exact Or.inl h
    · exact Or.inr h
  · intro hn
    rcases hcmds with h | ⟨hf, _⟩
    · exact h
    · exact absurd ⟨hf.2, hf.1⟩ hn
  · intro hfl hdry hread
    subst hfl hdry
    rcases restoreAction_cases W args false true del ignor stdin s with ⟨msg, hm⟩ |
      ⟨_, hb⟩ | ⟨name, f, e, ht, _⟩ | ⟨_, name, f, s1, ht, ho⟩
    · obtain ⟨rd, hd, hmem⟩ := hread
      rw [hm] at hmem
      simp [fail] at hmem
    · rw [hb] at hread ⊢
      obtain ⟨hd, res, post, ht, hpost, herr, hex⟩ :=
        restoreBody_flush W "STDIN" Reader.stdin del ignor s hread
      exact ⟨[], Reader.stdin, hd, res, post, by rw [ht]; rfl, by simp, hpost, herr, hex⟩
    · obtain ⟨rd, hd, hmem⟩ := hread
      rw [ht] at hmem
      simp at hmem
    · have hread2 : ∃ rd1 hd, Event.readHeader rd1 (some hd) ∈
          (restoreBody W name (Reader.file f) false true del ignor s1).trace := by
        obtain ⟨rd, hd, hmem⟩ := hread
        rw [ht] at hmem
        simp only [List.mem_cons] at hmem
        rcases hmem with hmem | hmem
        · cases hmem
        · exact ⟨rd, hd, hmem⟩
      obtain ⟨hd, res, post, htb, hpost, herr, hex⟩ :=
        restoreBody_flush W name (Reader.file f) del ignor s1 hread2
      refine ⟨[Event.openFile name f none], Reader.file f, hd, res, post, ?_, ?_, hpost,
        ?_, ?_⟩
      · rw [ht, htb]; rfl
      · intro e he
        simp only [List.mem_singleton] at he
        subst he
        exact ⟨rfl, rfl⟩
      · intro err hres
        exact ⟨(herr err hres).1, by rw [ho]; exact (herr err hres).2⟩
      · intro hres
        exact ⟨(hex hres).1, by rw [ho]; exact (hex hres).2⟩

/-- Witness for C6: the example restore with flushdb sends FLUSHDB right after the
header. -/
theorem restore_flushdb_once_witness :
    ∃ pre rd hd res post,
      (restoreAction demoWorld ["in.rdmp"] false true false true false demoState).trace =
        pre ++ Event.readHeader rd (some hd) :: Event.cmd "FLUSHDB" res :: post ∧
      (∀ e ∈ pre, e.isRecordCall = false ∧ e.cmdName = none) ∧
      (∀ e ∈ post, e.cmdName = none) ∧
      (∀ err, res = some (some err) → post = [] ∧
        (restoreAction demoWorld ["in.rdmp"] false true false true false
          demoState).outcome = Outcome.checkErr err "FLUSHDB") ∧
      (res = none → post = [] ∧
        (restoreAction demoWorld ["in.rdmp"] false true false true false
          demoState).outcome = Outcome.exited) :=
  (restore_flushdb_once demoWorld ["in.rdmp"] false true false true false demoState).2.2
    rfl rfl ⟨Reader.file 4, ⟨2⟩, by decide⟩

/-- C8: a restore run without dry-run whose flags pass validation, whose input is
ready, whose header announces N records, whose FLUSHDB (if asked for) is
accepted and whose input yields N records that `restoreKey` accepts, runs to
its end; the values `restoreKey` returned in the run are the N values the
store gave for the records of the input, in order, and the last call is the
report of the key count, which is their sum computed in the Go type `int` from
0: their exact sum whenever that sum is a non-negative value of the type.  A
call that returned 0 adds nothing to the sum. -/
theorem restore_reports_sum {σ : Type} (W : World σ) (args : List String)
    (flush del ignor stdin : Bool) (s s1 s2 s3 s4 : σ) (fileName : String) (rd : Reader)
    (hd : Header) (recs : List (Int × KeyDump × Int))
    (hval : ¬ (flush = true ∧ del = true))
    (hin : InputReady W args stdin s fileName rd s1)
    (hhd : W.readHeader rd s1 = some (hd, s2))
    (hfl : Flushed W flush s2 s3)
    (hrecs : replayAll W rd del ignor hd.Keys s3 = some (recs, s4)) :
    (restoreAction W args false flush del ignor stdin s).outcome = Outcome.done ∧
    restoreResults (restoreAction W args false flush del ignor stdin s).trace =
      recs.map (fun r => r.2.2) ∧
    (restoreResults (restoreAction W args false flush del ignor stdin s).trace).length =
      hd.Keys ∧
    (restoreAction W args false flush del ignor stdin s).trace.getLast? =
      some (Event.finishPrint (Report.restore fileName
        (wrapInt W.intBits
          (restoreResults (restoreAction W args false flush del ignor stdin s).trace).sum))) ∧
    (0 ≤ (restoreResults (restoreAction W args false flush del ignor stdin s).trace).sum →
      (restoreResults (restoreAction W args false flush del ignor stdin s).trace).sum <
        2 ^ (W.intBits - 1) →
      (restoreAction W args false flush del ignor stdin s).trace.getLast? =
        some (Event.finishPrint (Report.restore fileName
          (restoreResults (restoreAction W args false flush del ignor stdin s).trace).sum))) ∧
    ((restoreAction W args false flush del ignor stdin s).trace.filter
        fun e => e matches Event.finishPrint _).length = 1 := by
  obtain ⟨ht, ho, hs, hlen⟩ := restoreAction_live_run W args flush del ignor stdin s s1 s2
    s3 s4 fileName rd hd recs hval hin hhd hfl hrecs
  obtain ⟨_, hp2⟩ := opening_no_record fileName rd hd flush
  obtain ⟨_, hr2⟩ := interleaved_reads rd del ignor recs
  simp only [restoreResults] at hr2
  have hres : restoreResults (restoreAction W args false flush del ignor stdin s).trace =
      recs.map (fun r => r.2.2) := by
    simp only [restoreResults]
    rw [ht, List.filterMap_append, hp2]
    simp [Event.restored, hr2]
  have hlast : (restoreAction W args false flush del ignor stdin s).trace.getLast? =
      some (Event.finishPrint (Report.restore fileName
        (wrapInt W.intBits (recs.map fun r => r.2.2).sum))) := by
    rw [ht]
    rw [show ∀ (a b : List Event) (x y : Event), a ++ x :: (b ++ [y]) = (a ++ x :: b) ++ [y]
      from fun a b x y => by simp]
    exact List.getLast?_concat _
  have hfil : ∀ l : List (Int × KeyDump × Int),
      ((interleaved rd del ignor l).filter fun e => e matches Event.finishPrint _) = [] := by
    intro l
    induction l with
    | nil => rfl
    | cons r rs ih =>
      obtain ⟨n, d, c⟩ := r
      simp [interleaved, ih]
  refine ⟨ho, hres, by rw [hres]; simp [hlen], by rw [hres]; exact hlast, ?_, ?_⟩
  · intro h0 h1
    rw [hres] at h0 h1 ⊢
    rw [hlast, wrapInt_of_range _ _ h0 h1]
  · rw [ht]
    cases rd <;> cases flush <;>
      simp [openingCalls, flushCalls, List.filter_cons, hfil]

/-- Witness for C8: the example restore of a file of two records, the second an
ignored conflict: the report is 1. -/
theorem restore_reports_sum_witness :
    (restoreAction demoWorld ["in.rdmp"] false true false true false demoState).outcome =
      Outcome.done ∧
    restoreResults
      (restoreAction demoWorld ["in.rdmp"] false true false true false demoState).trace =
      ([(1, ⟨"a", -1, [1, 2]⟩, 1), (1, ⟨"b", 5000, [3]⟩, 0)] :
        List (Int × KeyDump × Int)).map (fun r => r.2.2) ∧
    (restoreAction demoWorld ["in.rdmp"] false true false true false
      demoState).trace.getLast? = some (Event.finishPrint (Report.restore "in.rdmp" 1)) :=
  have h := restore_reports_sum demoWorld ["in.rdmp"] true false true false
    demoState demoState demoState demoState ⟨["b"], [], []⟩ "in.rdmp" (Reader.file 4) ⟨2⟩
    [(1, ⟨"a", -1, [1, 2]⟩, 1), (1, ⟨"b", 5000, [3]⟩, 0)]
    (by decide) ⟨rfl, rfl, rfl⟩ rfl (by simp [Flushed, demoWorld]) rfl
  ⟨h.1, h.2.1, h.2.2.2.2.1 (by decide) (by decide)⟩

/-- C9, as stated, fails: the example dry-run over a file whose header announces 2
records runs to its end and reports the key count 0. -/
theorem restore_dry_run_count_counterexample :
    (restoreAction demoWorld ["in.rdmp"] true false false false false demoState).trace =
      [Event.openFile "in.rdmp" 4 none,
       Event.readHeader (Reader.file 4) (some ⟨2⟩),
       Event.barStart 2,
       Event.barIncrement,
       Event.readDump (Reader.file 4) (some (1, ⟨"a", -1, [1, 2]⟩)),
       Event.barIncrement,
       Event.readDump (Reader.file 4) (some (1, ⟨"b", 5000, [3]⟩)),
       Event.finishPrint (Report.restore "in.rdmp" 0)] ∧
    (restoreAction demoWorld ["in.rdmp"] true false false false false demoState).outcome =
      Outcome.done ∧
    ¬ ((0 : Int) = ((2 : Nat) : Int)) := by
  decide

/-- C9, amended: a dry-run restore that runs to its end over a file whose header
announces N records increments the progress bar N times and calls `readDump` N
times, and reports the key count 0: with dry-run no record is added to the
count. -/
theorem restore_dry_run_reports_zero {σ : Type} (W : World σ) (args : List String)
    (flush del ignor stdin : Bool) (s : σ)
    (hdone : (restoreAction W args true flush del ignor stdin s).outcome = Outcome.done) :
    ∃ pre rd hd fileName,
      (restoreAction W args true flush del ignor stdin s).trace =
        pre ++ [Event.finishPrint (Report.restore fileName 0)] ∧
      Event.readHeader rd (some hd) ∈ pre ∧
      (restoreAction W args true flush del ignor stdin s).trace.count Event.barIncrement =
        hd.Keys ∧
      (readDumpCalls (restoreAction W args true flush del ignor stdin s).trace).length =
        hd.Keys := by
  obtain ⟨opening, fileName, rd, hd, s0, keysC, hop, hk, ht⟩ :=
    restoreAction_done W args true flush del ignor stdin s hdone
  obtain ⟨hzero, recs, hlen, hsc⟩ := restoreLoop_dry_done W rd del ignor hd.Keys 0 keysC s0 hk
  subst hzero
  have hsr := scanned_reads rd recs
  simp only [readDumpCalls] at hsr
  have hsplit : (restoreAction W args true flush del ignor stdin s).trace =
      (opening ++ [Event.readHeader rd (some hd),
        Event.barStart (wrapInt W.intBits hd.Keys)] ++ scanned rd recs) ++
          [Event.finishPrint (Report.restore fileName 0)] := by
    rw [ht, hsc]; simp
  refine ⟨opening ++ [Event.readHeader rd (some hd),
      Event.barStart (wrapInt W.intBits hd.Keys)] ++ scanned rd recs,
    rd, hd, fileName, hsplit, by simp, ?_, ?_⟩
  · rw [hsplit]
    rcases hop with rfl | ⟨name, f, rfl⟩ <;>
      simp [List.count_cons, hsr.2.1, hlen]
  · rw [hsplit]
    simp only [readDumpCalls]
    rcases hop with rfl | ⟨name, f, rfl⟩ <;>
      simp [Event.readFrom, hsr.1, hlen]

/-- Witness for the amended C9: the example dry-run over a file of two records. -/
theorem restore_dry_run_reports_zero_witness :
    (restoreAction demoWorld ["in.rdmp"] true false false false false demoState).outcome =
      Outcome.done ∧
    ∃ pre rd hd fileName,
      (restoreAction demoWorld ["in.rdmp"] true false false false false demoState).trace =
        pre ++ [Event.finishPrint (Report.restore fileName 0)] ∧
      Event.readHeader rd (some hd) ∈ pre ∧
      (restoreAction demoWorld ["in.rdmp"] true false false false false
        demoState).trace.count Event.barIncrement = hd.Keys ∧
      (readDumpCalls (restoreAction demoWorld ["in.rdmp"] true false false false false
        demoState).trace).length = hd.Keys :=
  ⟨by decide,
    restore_dry_run_reports_zero demoWorld ["in.rdmp"] false false false false demoState
      (by decide)⟩

end Rutil
